import Mathlib

/-!
Shallow embedding of the SpaceNet-8 multi-pass inference and reconstruction
pipeline from `tools/test_net.py`.

Numpy arrays of shape `[C, H, W]` are modelled as nested lists of rationals;
boolean nodata masks as nested lists of booleans.  Numpy operations that can
raise (boolean-mask indexing with a mismatched mask shape, non-broadcastable
in-place addition, `assert` statements) are modelled as `Option`-returning
functions, `none` standing for the raised error.
-/

namespace SN8

abbrev Row := List ℚ
abbrev Plane := List Row
abbrev Arr3 := List Plane
abbrev Mask := List (List Bool)
abbrev NArr3 := List (List (List ℕ))

/-- Entry read of a 3-d array; out-of-range reads default to `0`
(only in-range reads are ever used in the statements). -/
def at3 (a : Arr3) (c i j : ℕ) : ℚ := ((a.getD c []).getD i []).getD j 0

/-- Entry read of a 2-d array. -/
def at2 (p : Plane) (i j : ℕ) : ℚ := (p.getD i []).getD j 0

/-- Entry read of a 2-d boolean mask. -/
def atM (m : Mask) (i j : ℕ) : Bool := (m.getD i []).getD j false

/-- Entry read of a 3-d natural-number array. -/
def atN (a : NArr3) (c i j : ℕ) : ℕ := ((a.getD c []).getD i []).getD j 0

/-- `p` is a rectangular `h × w` matrix (numpy 2-d array). -/
def rect2 {α : Type} (p : List (List α)) (h w : ℕ) : Prop :=
  p.length = h ∧ ∀ r ∈ p, r.length = w

/-- `a` is a rectangular `c × h × w` array (numpy 3-d array). -/
def rect3 {α : Type} (a : List (List (List α))) (c h w : ℕ) : Prop :=
  a.length = c ∧ ∀ p ∈ a, rect2 p h w

/-- Second-axis extent, as numpy would read it off `shape` (length of the
first plane). -/
def dim1 {α : Type} (a : List (List α)) : ℕ := (a.headD []).length

/-- Third-axis extent (length of the first row of the first plane). -/
def dim2 {α : Type} (a : List (List (List α))) : ℕ := ((a.headD []).headD []).length

theorem getD_of_lt {α : Type} (l : List α) (d : α) {i : ℕ} (h : i < l.length) :
    l.getD i d = l[i] := by
  rw [List.getD_eq_getElem?_getD, List.getElem?_eq_getElem h]; rfl

theorem getD_of_le {α : Type} (l : List α) (d : α) {i : ℕ} (h : l.length ≤ i) :
    l.getD i d = d := by
  rw [List.getD_eq_getElem?_getD, List.getElem?_eq_none h]; rfl

theorem dim1_of_rect3 {α : Type} {a : List (List (List α))} {c h w : ℕ}
    (hr : rect3 a c h w) (hc : 0 < c) : dim1 a = h := by
  obtain ⟨hlen, hall⟩ := hr
  cases a with
  | nil => simp at hlen; omega
  | cons p ps => exact (hall p (by simp)).1

theorem dim2_of_rect3 {α : Type} {a : List (List (List α))} {c h w : ℕ}
    (hr : rect3 a c h w) (hc : 0 < c) (hh : 0 < h) : dim2 a = w := by
  obtain ⟨hlen, hall⟩ := hr
  cases a with
  | nil => simp at hlen; omega
  | cons p ps =>
    obtain ⟨hp, hrow⟩ := hall p (by simp)
    cases p with
    | nil => simp at hp; omega
    | cons r rs => exact hrow r (by simp)

/-- `crop_center` from `tools/test_net.py`: returns
`pred[:, top:bottom, left:right]` with `left = (w - crop_w) // 2`,
`top = (h - crop_h) // 2`; the two `assert` statements are modelled by
returning `none` when they fail. -/
def crop_center (pred : Arr3) (crop_w crop_h : ℕ) : Option Arr3 :=
  let h := dim1 pred
  let w := dim2 pred
  if crop_w ≤ w ∧ crop_h ≤ h then
    some (pred.map fun plane =>
      ((plane.drop ((h - crop_h) / 2)).take crop_h).map fun row =>
        (row.drop ((w - crop_w) / 2)).take crop_w)
  else none

theorem crop_center_entry {pred : Arr3} {C H W ch cw : ℕ}
    (hrect : rect3 pred C H W) (hC : 0 < C) (hH : 0 < H)
    (hch : ch ≤ H) (hcw : cw ≤ W) :
    ∃ out, crop_center pred cw ch = some out ∧ rect3 out C ch cw ∧
      ∀ c < C, ∀ i < ch, ∀ j < cw,
        at3 out c i j = at3 pred c ((H - ch) / 2 + i) ((W - cw) / 2 + j) := by
  have hd1 : dim1 pred = H := dim1_of_rect3 hrect hC
  have hd2 : dim2 pred = W := dim2_of_rect3 hrect hC hH
  obtain ⟨hlen, hall⟩ := hrect
  refine ⟨pred.map fun plane =>
      ((plane.drop ((H - ch) / 2)).take ch).map fun row =>
        (row.drop ((W - cw) / 2)).take cw, ?_, ?_, ?_⟩
  · unfold crop_center
    rw [hd1, hd2, if_pos ⟨hcw, hch⟩]
  · constructor
    · simpa using hlen
    · intro p hp
      rw [List.mem_map] at hp
      obtain ⟨plane, hplane, rfl⟩ := hp
      obtain ⟨hpl, hprow⟩ := hall plane hplane
      constructor
      · rw [List.length_map, List.length_take, List.length_drop, hpl]
        omega
      · intro r hr
        rw [List.mem_map] at hr
        obtain ⟨row, hrow, rfl⟩ := hr
        have hrw : row.length = W := by
          have : row ∈ plane := List.mem_of_mem_drop (List.mem_of_mem_take hrow)
          exact hprow _ this
        rw [List.length_take, List.length_drop, hrw]
        omega
  · intro c hc i hi j hj
    have hcl : c < (pred.map fun plane =>
        ((plane.drop ((H - ch) / 2)).take ch).map fun row =>
          (row.drop ((W - cw) / 2)).take cw).length := by
      rw [List.length_map, hlen]; exact hc
    have hcp : c < pred.length := by rw [hlen]; exact hc
    obtain ⟨hpl, hprow⟩ := hall pred[c] (List.getElem_mem hcp)
    unfold at3
    rw [getD_of_lt _ _ hcl, List.getElem_map]
    have hlen1 : ((pred[c].drop ((H - ch) / 2)).take ch).length = ch := by
      rw [List.length_take, List.length_drop, hpl]; omega
    have hi1 : i < (((pred[c].drop ((H - ch) / 2)).take ch).map fun row =>
        (row.drop ((W - cw) / 2)).take cw).length := by
      rw [List.length_map, hlen1]; exact hi
    rw [getD_of_lt _ _ hi1, List.getElem_map]
    have hi2 : i < ((pred[c].drop ((H - ch) / 2)).take ch).length := by
      rw [hlen1]; exact hi
    have hi3 : i < (pred[c].drop ((H - ch) / 2)).length := by
      rw [List.length_drop, hpl]; omega
    have hrowlen : (pred[c].drop ((H - ch) / 2))[i].length = W := by
      have : (pred[c].drop ((H - ch) / 2))[i] ∈ pred[c] :=
        List.mem_of_mem_drop (List.getElem_mem hi3)
      exact hprow _ this
    have hj1 : j < (((pred[c].drop ((H - ch) / 2))[i].drop ((W - cw) / 2)).take cw).length := by
      rw [List.length_take, List.length_drop, hrowlen]; omega
    simp only [List.getElem_take]
    rw [getD_of_lt _ _ hj1]
    have hic : (H - ch) / 2 + i < pred[c].length := by
      rw [hpl]
      have : (H - ch) / 2 ≤ H - ch := Nat.div_le_self _ _
      omega
    have hjc : (W - cw) / 2 + j < pred[c][(H - ch) / 2 + i].length := by
      have : pred[c][(H - ch) / 2 + i] ∈ pred[c] := List.getElem_mem hic
      rw [hprow _ this]
      have : (W - cw) / 2 ≤ W - cw := Nat.div_le_self _ _
      omega
    rw [getD_of_lt _ _ hcp, getD_of_lt _ _ hic, getD_of_lt _ _ hjc]
    simp only [List.getElem_take, List.getElem_drop]

theorem crop_center_fails {pred : Arr3} {C H W ch cw : ℕ}
    (hrect : rect3 pred C H W) (hC : 0 < C) (hH : 0 < H)
    (hbad : H < ch ∨ W < cw) : crop_center pred cw ch = none := by
  have hd1 : dim1 pred = H := dim1_of_rect3 hrect hC
  have hd2 : dim2 pred = W := dim2_of_rect3 hrect hC hH
  unfold crop_center
  rw [hd1, hd2, if_neg]
  intro ⟨h1, h2⟩
  omega

/-- C1: for a rectangular `[C, H, W]` probability map and a target size with
`crop_h ≤ H` and `crop_w ≤ W`, `crop_center` returns the subarray whose
top-left corner is at row `(H - crop_h) / 2` and column `(W - crop_w) / 2`
and whose shape is exactly `[C, crop_h, crop_w]`; if the target exceeds the
map in either dimension, the assertion fires and no result is returned. -/
theorem crop_center_correct (pred : Arr3) (C H W ch cw : ℕ)
    (hrect : rect3 pred C H W) (hC : 0 < C) (hH : 0 < H) :
    (ch ≤ H → cw ≤ W →
      ∃ out, crop_center pred cw ch = some out ∧ rect3 out C ch cw ∧
        ∀ c < C, ∀ i < ch, ∀ j < cw,
          at3 out c i j = at3 pred c ((H - ch) / 2 + i) ((W - cw) / 2 + j)) ∧
    ((H < ch ∨ W < cw) → crop_center pred cw ch = none) :=
  ⟨fun hch hcw => crop_center_entry hrect hC hH hch hcw,
   fun hbad => crop_center_fails hrect hC hH hbad⟩

/-- Witness for C1 at a concrete input: a `1 × 3 × 3` map cropped to `2 × 2`. -/
theorem crop_center_correct_witness :
    ∃ out, crop_center [[[1, 2, 3], [4, 5, 6], [7, 8, 9]]] 2 2 = some out ∧
      rect3 out 1 2 2 ∧
      ∀ c < 1, ∀ i < 2, ∀ j < 2,
        at3 out c i j = at3 [[[1, 2, 3], [4, 5, 6], [7, 8, 9]]] c ((3 - 2) / 2 + i) ((3 - 2) / 2 + j) := by
  have h := crop_center_correct [[[1, 2, 3], [4, 5, 6], [7, 8, 9]]] 1 3 3 2 2
    (by unfold rect3 rect2; decide) (by omega) (by omega)
  exact h.1 (by omega) (by omega)

/-- Pointwise sum of two planes (`numpy` elementwise `+` on equal shapes). -/
def planeAdd (a b : Plane) : Plane := List.zipWith (List.zipWith (· + ·)) a b

/-- `np.sum(image, axis=0)`: channel-wise sum of a `[C, H, W]` image. -/
def sumAxis0 : Arr3 → Plane
  | [] => []
  | [p] => p
  | p :: ps => planeAdd p (sumAxis0 ps)

/-- `plane == 0` elementwise, producing a boolean nodata mask. -/
def eqZeroMask (p : Plane) : Mask := p.map (List.map (fun x => x == 0))

/-- The channel sum of an image at one pixel (the value
`np.sum(image, axis=0)[i, j]` reads on a rectangular image). -/
def chanSumAt (img : Arr3) (i j : ℕ) : ℚ := (img.map (fun p => at2 p i j)).sum

/-- Two 2-d arrays have identical row-length profiles (numpy shape check for
boolean-mask indexing). -/
def sameShape2 {α β : Type} (p : List (List α)) (m : List (List β)) : Bool :=
  p.map List.length == m.map List.length

/-- `plane[mask] = 0` for one channel plane: zero where the mask is true. -/
def maskZero2 (p : Plane) (m : Mask) : Plane :=
  List.zipWith (fun row mrow => List.zipWith (fun x b => if b then 0 else x) row mrow) p m

/-- `pred[:, nodata_mask] = 0` (line 207): zero every channel at mask-true
pixels; numpy raises `IndexError` when the boolean mask's shape differs from
the indexed axes' shape, modelled as `none`. -/
def setZeroAllChannels (pred : Arr3) (m : Mask) : Option Arr3 :=
  if pred.all (fun plane => sameShape2 plane m) then
    some (pred.map (fun plane => maskZero2 plane m))
  else none

/-- The flood-type class names special-cased at line 219. -/
def floodClasses : List String := ["flood_building", "flood_road", "flood"]

/-- `pred[class_index, nodata_mask] = 0` for a single channel index
(line 220): `IndexError` when the index is out of range or the mask shape
does not match the plane's. -/
def setZeroAt (pred : Arr3) (ci : ℕ) (m : Mask) : Option Arr3 :=
  match pred[ci]? with
  | some plane => if sameShape2 plane m then some (pred.set ci (maskZero2 plane m)) else none
  | none => none

/-- The `for class_index, class_name in enumerate(classes)` loop
(lines 218-220), with `ci` the running enumeration index. -/
def floodLoop (m : Mask) : ℕ → List String → Arr3 → Option Arr3
  | _, [], pred => some pred
  | ci, name :: rest, pred =>
    if floodClasses.contains name then
      match setZeroAt pred ci m with
      | some pred2 => floodLoop m (ci + 1) rest pred2
      | none => none
    else floodLoop m (ci + 1) rest pred

/-- The whole post-conditioned masking assignment over the flattened class
list. -/
def maskFloodChannels (pred : Arr3) (classes : List String) (m : Mask) : Option Arr3 :=
  floodLoop m 0 classes pred

/-- `np.zeros(shape=[orig_h, orig_w], dtype=bool)` (line 210). -/
def allFalseMask (h w : ℕ) : Mask := List.replicate h (List.replicate w false)

/-- `mask_a & mask_b` (line 216); numpy elementwise AND, which raises when the
shapes disagree. -/
def maskAnd (a b : Mask) : Option Mask :=
  if sameShape2 a b then some (List.zipWith (List.zipWith and) a b) else none

/-- Lines 210-216: build the post-image nodata mask.  Starts as an all-false
`orig_h × orig_w` array; replaced by `sum(post_a) == 0` when post-image A is
configured; AND-combined with `sum(post_b) == 0` when post-image B is. -/
def buildPostMask (origH origW : ℕ) (postA postB : Option Arr3) : Option Mask :=
  let m0 := allFalseMask origH origW
  let m1 := match postA with
    | some a => eqZeroMask (sumAxis0 a)
    | none => m0
  match postB with
  | some b => maskAnd m1 (eqZeroMask (sumAxis0 b))
  | none => some m1

/-- `pred[:, ::-1, :]` (line 224): reverse along the height axis. -/
def vflip3 (pred : Arr3) : Arr3 := pred.map List.reverse

/-- `pred[:, :, ::-1]` (line 226): reverse along the width axis. -/
def hflip3 (pred : Arr3) : Arr3 := pred.map (List.map List.reverse)

/-- Lines 204-228 applied to one sample of one variant: pre-image nodata
masking, post-conditioned flood masking, flip inversion, center crop. -/
def rectifySample (pred image : Arr3) (postA postB : Option Arr3)
    (classes : List String) (origH origW : ℕ) (hf vf : Bool) : Option Arr3 := do
  let p1 ← setZeroAllChannels pred (eqZeroMask (sumAxis0 image))
  let pm ← buildPostMask origH origW postA postB
  let p2 ← maskFloodChannels p1 classes pm
  let p3 := if vf then vflip3 p2 else p2
  let p4 := if hf then hflip3 p3 else p3
  crop_center p4 origW origH

theorem getD_zipWith {α β γ : Type} (f : α → β → γ) (da : α) (db : β) (dc : γ) :
    ∀ (as : List α) (bs : List β) (j : ℕ), j < as.length → j < bs.length →
      (List.zipWith f as bs).getD j dc = f (as.getD j da) (bs.getD j db)
  | [], _, _, ha, _ => by simp at ha
  | _ :: _, [], _, _, hb => by simp at hb
  | a :: as, b :: bs, 0, _, _ => by simp [List.getD]
  | a :: as, b :: bs, j + 1, ha, hb => by
    simpa using getD_zipWith f da db dc as bs j (by simpa using ha) (by simpa using hb)

theorem length_zipWith_eq {α β γ : Type} (f : α → β → γ) (as : List α) (bs : List β)
    (h : as.length = bs.length) : (List.zipWith f as bs).length = as.length := by
  rw [List.length_zipWith]; omega

theorem rect2_zipWith {α β γ : Type} {f : List α → List β → List γ} {p : List (List α)}
    {m : List (List β)} {h w : ℕ} (hp : rect2 p h w) (hm : rect2 m h w)
    (hf : ∀ r ∈ p, ∀ s ∈ m, (f r s).length = w) :
    rect2 (List.zipWith f p m) h w := by
  constructor
  · rw [List.length_zipWith, hp.1, hm.1]; omega
  · intro r hr
    rw [List.mem_iff_getElem] at hr
    obtain ⟨i, hil, rfl⟩ := hr
    rw [List.getElem_zipWith]
    have hip : i < p.length := by rw [List.length_zipWith] at hil; omega
    have him : i < m.length := by rw [List.length_zipWith] at hil; omega
    exact hf _ (List.getElem_mem hip) _ (List.getElem_mem him)

theorem rowlen_of_rect2 {α : Type} {p : List (List α)} {h w : ℕ} (hp : rect2 p h w)
    {i : ℕ} (hi : i < h) : (p.getD i []).length = w := by
  have hil : i < p.length := by rw [hp.1]; exact hi
  rw [getD_of_lt _ _ hil]
  exact hp.2 _ (List.getElem_mem hil)

theorem at2_planeAdd {p q : Plane} {h w : ℕ} (hp : rect2 p h w) (hq : rect2 q h w)
    {i j : ℕ} (hi : i < h) (hj : j < w) :
    at2 (planeAdd p q) i j = at2 p i j + at2 q i j := by
  unfold planeAdd at2
  rw [getD_zipWith _ [] [] [] p q i (by rw [hp.1]; exact hi) (by rw [hq.1]; exact hi)]
  rw [getD_zipWith _ 0 0 0 _ _ j (by rw [rowlen_of_rect2 hp hi]; exact hj)
    (by rw [rowlen_of_rect2 hq hi]; exact hj)]

theorem rect2_planeAdd {p q : Plane} {h w : ℕ} (hp : rect2 p h w) (hq : rect2 q h w) :
    rect2 (planeAdd p q) h w := by
  refine rect2_zipWith hp hq ?_
  intro r hr s hs
  rw [List.length_zipWith, hp.2 _ hr, hq.2 _ hs]
  omega

theorem sumAxis0_spec {a : Arr3} {c h w : ℕ} (hr : rect3 a c h w) (hc : 0 < c) :
    rect2 (sumAxis0 a) h w ∧
      ∀ i < h, ∀ j < w, at2 (sumAxis0 a) i j = chanSumAt a i j := by
  induction a generalizing c with
  | nil => have := hr.1; simp at this; omega
  | cons p ps ih =>
    have hp : rect2 p h w := hr.2 p (by simp)
    cases ps with
    | nil =>
      refine ⟨by simpa [sumAxis0] using hp, ?_⟩
      intro i hi j hj
      simp [sumAxis0, chanSumAt]
    | cons q qs =>
      have hps : rect3 (q :: qs) (c - 1) h w := by
        refine ⟨?_, ?_⟩
        · have := hr.1; simp at this ⊢; omega
        · intro x hx; exact hr.2 x (by simp [hx])
      have hc1 : 0 < c - 1 := by
        have := hr.1; simp at this; omega
      obtain ⟨ihrect, ihentry⟩ := ih hps hc1
      have hsum : sumAxis0 (p :: q :: qs) = planeAdd p (sumAxis0 (q :: qs)) := rfl
      refine ⟨by rw [hsum]; exact rect2_planeAdd hp ihrect, ?_⟩
      intro i hi j hj
      rw [hsum, at2_planeAdd hp ihrect hi hj, ihentry i hi j hj]
      simp [chanSumAt]

theorem rect2_eqZeroMask {p : Plane} {h w : ℕ} (hp : rect2 p h w) :
    rect2 (eqZeroMask p) h w := by
  constructor
  · rw [eqZeroMask, List.length_map]; exact hp.1
  · intro r hr
    rw [eqZeroMask, List.mem_map] at hr
    obtain ⟨s, hs, rfl⟩ := hr
    rw [List.length_map]; exact hp.2 _ hs

theorem getD_map_of_lt {α β : Type} (f : α → β) (l : List α) (da : α) (db : β) {i : ℕ}
    (h : i < l.length) : (l.map f).getD i db = f (l.getD i da) := by
  rw [getD_of_lt _ _ h, getD_of_lt _ _ (by rw [List.length_map]; exact h), List.getElem_map]

theorem atM_eqZeroMask {p : Plane} {h w : ℕ} (hp : rect2 p h w) {i j : ℕ}
    (hi : i < h) (hj : j < w) :
    atM (eqZeroMask p) i j = true ↔ at2 p i j = 0 := by
  unfold atM eqZeroMask at2
  have hil : i < p.length := by rw [hp.1]; exact hi
  rw [getD_map_of_lt _ _ [] _ hil]
  have hjl : j < (p.getD i []).length := by rw [rowlen_of_rect2 hp hi]; exact hj
  rw [getD_map_of_lt _ _ 0 _ hjl]
  exact beq_iff_eq

theorem map_length_eq_replicate {α : Type} {p : List (List α)} {h w : ℕ}
    (hp : rect2 p h w) : p.map List.length = List.replicate h w := by
  apply List.eq_replicate_iff.mpr
  refine ⟨by rw [List.length_map]; exact hp.1, ?_⟩
  intro b hb
  rw [List.mem_map] at hb
  obtain ⟨r, hr, rfl⟩ := hb
  exact hp.2 _ hr

theorem sameShape2_of_rect2 {α β : Type} {p : List (List α)} {m : List (List β)}
    {h w : ℕ} (hp : rect2 p h w) (hm : rect2 m h w) : sameShape2 p m = true := by
  rw [sameShape2, map_length_eq_replicate hp, map_length_eq_replicate hm]
  exact beq_self_eq_true _

theorem sameShape2_ne {α β : Type} {p : List (List α)} {m : List (List β)}
    {h w oh ow : ℕ} (hp : rect2 p h w) (hm : rect2 m oh ow)
    (hne : h ≠ oh ∨ (w ≠ ow ∧ 0 < h)) : sameShape2 p m = false := by
  rw [sameShape2, map_length_eq_replicate hp, map_length_eq_replicate hm]
  apply beq_eq_false_iff_ne.mpr
  intro hEq
  have hlen : h = oh := by
    have := congrArg List.length hEq
    simpa using this
  rcases hne with hne | ⟨hne, hpos⟩
  · exact hne hlen
  · subst hlen
    have h0 : (List.replicate h w)[0]? = (List.replicate h ow)[0]? := by rw [hEq]
    rw [List.getElem?_replicate, List.getElem?_replicate] at h0
    simp only [if_pos hpos] at h0
    exact hne (by injection h0)

theorem atM_allFalse (h w i j : ℕ) : atM (allFalseMask h w) i j = false := by
  unfold atM allFalseMask
  have houter : (List.replicate h (List.replicate w false)).getD i [] =
      if i < h then List.replicate w false else [] := by
    rcases Nat.lt_or_ge i h with hi | hi
    · rw [getD_of_lt _ _ (show i < (List.replicate h (List.replicate w false)).length by
        simpa using hi), List.getElem_replicate, if_pos hi]
    · rw [getD_of_le _ _ (by simpa using hi), if_neg (by omega)]
  rw [houter]
  rcases Nat.lt_or_ge i h with hi | hi
  · rw [if_pos hi]
    rcases Nat.lt_or_ge j w with hj | hj
    · rw [getD_of_lt _ _ (show j < (List.replicate w false).length by simpa using hj),
        List.getElem_replicate]
    · rw [getD_of_le _ _ (by simpa using hj)]
  · rw [if_neg (by omega)]
    rfl

theorem rect2_allFalse (h w : ℕ) : rect2 (allFalseMask h w) h w := by
  constructor
  · rw [allFalseMask, List.length_replicate]
  · intro r hr
    rw [allFalseMask] at hr
    rw [List.eq_of_mem_replicate hr, List.length_replicate]

theorem rect2_maskZero2 {p : Plane} {m : Mask} {h w : ℕ} (hp : rect2 p h w)
    (hm : rect2 m h w) : rect2 (maskZero2 p m) h w := by
  refine rect2_zipWith hp hm ?_
  intro r hr s hs
  rw [List.length_zipWith, hp.2 _ hr, hm.2 _ hs]
  omega

theorem at2_maskZero2 {p : Plane} {m : Mask} {h w : ℕ} (hp : rect2 p h w)
    (hm : rect2 m h w) {i j : ℕ} (hi : i < h) (hj : j < w) :
    at2 (maskZero2 p m) i j = if atM m i j then 0 else at2 p i j := by
  unfold maskZero2 at2 atM
  rw [getD_zipWith _ [] [] [] p m i (by rw [hp.1]; exact hi) (by rw [hm.1]; exact hi)]
  rw [getD_zipWith _ 0 false 0 _ _ j (by rw [rowlen_of_rect2 hp hi]; exact hj)
    (by rw [rowlen_of_rect2 hm hi]; exact hj)]

theorem zipWith_false_row : ∀ (r : Row) (w : ℕ), r.length = w →
    List.zipWith (fun x b => if b then 0 else x) r (List.replicate w false) = r
  | [], _, _ => by simp
  | x :: xs, w, hw => by
    cases w with
    | zero => simp at hw
    | succ w' =>
      simp only [List.replicate_succ, List.zipWith_cons_cons, if_neg Bool.false_ne_true]
      rw [zipWith_false_row xs w' (by simpa using hw)]

theorem maskZero2_allFalse {p : Plane} {h w : ℕ} (hp : rect2 p h w) :
    maskZero2 p (allFalseMask h w) = p := by
  obtain ⟨hlen, hrow⟩ := hp
  subst hlen
  unfold maskZero2 allFalseMask
  induction p with
  | nil => simp
  | cons r rs ih =>
    simp only [List.length_cons, List.replicate_succ, List.zipWith_cons_cons]
    rw [zipWith_false_row r w (hrow r (by simp)), ih (fun s hs => hrow s (by simp [hs]))]

theorem setZeroAllChannels_spec {pred : Arr3} {m : Mask} {C h w : ℕ}
    (hr : rect3 pred C h w) (hm : rect2 m h w) :
    setZeroAllChannels pred m = some (pred.map (fun plane => maskZero2 plane m)) ∧
      rect3 (pred.map (fun plane => maskZero2 plane m)) C h w ∧
      ∀ c < C, ∀ i < h, ∀ j < w,
        at3 (pred.map (fun plane => maskZero2 plane m)) c i j =
          if atM m i j then 0 else at3 pred c i j := by
  refine ⟨?_, ?_, ?_⟩
  · rw [setZeroAllChannels, if_pos]
    rw [List.all_eq_true]
    intro plane hplane
    exact sameShape2_of_rect2 (hr.2 _ hplane) hm
  · constructor
    · rw [List.length_map]; exact hr.1
    · intro plane hplane
      rw [List.mem_map] at hplane
      obtain ⟨q, hq, rfl⟩ := hplane
      exact rect2_maskZero2 (hr.2 _ hq) hm
  · intro c hc i hi j hj
    have hcl : c < pred.length := by rw [hr.1]; exact hc
    unfold at3
    rw [getD_map_of_lt _ _ [] _ hcl]
    have hq : rect2 (pred.getD c []) h w := by
      rw [getD_of_lt _ _ hcl]; exact hr.2 _ (List.getElem_mem hcl)
    exact at2_maskZero2 hq hm hi hj

theorem set_eq_self_of_getElem? {α : Type} :
    ∀ (l : List α) (i : ℕ) (a : α), l[i]? = some a → l.set i a = l
  | [], i, a, h => by simp at h
  | x :: xs, 0, a, h => by simp at h; simp [h]
  | x :: xs, i + 1, a, h => by
    simp only [List.getElem?_cons_succ] at h
    simp [List.set_cons_succ, set_eq_self_of_getElem? xs i a h]

theorem floodLoop_length {m : Mask} :
    ∀ (cs : List String) (n : ℕ) (pred out : Arr3),
      floodLoop m n cs pred = some out → out.length = pred.length
  | [], n, pred, out, h => by
    simp only [floodLoop] at h
    injection h with h
    rw [h]
  | name :: rest, n, pred, out, h => by
    simp only [floodLoop] at h
    by_cases hf : floodClasses.contains name
    · rw [if_pos hf] at h
      cases hz : setZeroAt pred n m with
      | none => rw [hz] at h; simp at h
      | some pred2 =>
        rw [hz] at h
        dsimp only at h
        have hlen2 : pred2.length = pred.length := by
          unfold setZeroAt at hz
          cases hp : pred[n]? with
          | none => rw [hp] at hz; simp at hz
          | some plane =>
            rw [hp] at hz
            dsimp only at hz
            by_cases hs : sameShape2 plane m
            · rw [if_pos hs] at hz
              injection hz with hz
              rw [← hz, List.length_set]
            · rw [if_neg hs] at hz; simp at hz
        rw [floodLoop_length rest (n + 1) pred2 out h, hlen2]
    · rw [if_neg hf] at h
      exact floodLoop_length rest (n + 1) pred out h

theorem floodLoop_getElem? {m : Mask} :
    ∀ (cs : List String) (n : ℕ) (pred out : Arr3),
      floodLoop m n cs pred = some out →
      ∀ c, out[c]? =
        if n ≤ c ∧ c - n < cs.length ∧ floodClasses.contains (cs.getD (c - n) "") = true
        then (pred[c]?).map (fun p => maskZero2 p m)
        else pred[c]?
  | [], n, pred, out, h, c => by
    simp only [floodLoop] at h
    injection h with h
    rw [h, if_neg]
    intro ⟨_, hlt, _⟩
    simp at hlt
  | name :: rest, n, pred, out, h, c => by
    simp only [floodLoop] at h
    by_cases hf : floodClasses.contains name
    · rw [if_pos hf] at h
      cases hz : setZeroAt pred n m with
      | none => rw [hz] at h; simp at h
      | some pred2 =>
        rw [hz] at h
        dsimp only at h
        unfold setZeroAt at hz
        cases hp : pred[n]? with
        | none => rw [hp] at hz; simp at hz
        | some plane =>
          rw [hp] at hz
          dsimp only at hz
          by_cases hs : sameShape2 plane m
          · rw [if_pos hs] at hz
            injection hz with hz
            have hrec := floodLoop_getElem? rest (n + 1) pred2 out h
            by_cases hcn : c = n
            · subst hcn
              have hclen : c < pred.length := (List.getElem?_eq_some_iff.mp hp).1
              rw [hrec c, if_neg (by omega), ← hz, List.getElem?_set_self hclen, hp]
              have h1 : c - c < (name :: rest).length := by simp
              have h2 : floodClasses.contains ((name :: rest).getD (c - c) "") = true := by
                rw [Nat.sub_self, List.getD_cons_zero]; exact hf
              rw [if_pos ⟨Nat.le_refl c, h1, h2⟩]
              simp
            · rcases Nat.lt_or_ge c n with hlt | hge
              · rw [hrec c, if_neg (by omega), if_neg (by omega)]
                rw [← hz, List.getElem?_set_ne (by omega)]
              · have hgt : n < c := by omega
                rw [hrec c]
                have hp2 : pred2[c]? = pred[c]? := by
                  rw [← hz, List.getElem?_set_ne (by omega)]
                have hgetD : (name :: rest).getD (c - n) "" = rest.getD (c - (n + 1)) "" := by
                  have : c - n = (c - (n + 1)) + 1 := by omega
                  rw [this, List.getD_cons_succ]
                by_cases hcond : n + 1 ≤ c ∧ c - (n + 1) < rest.length ∧
                    floodClasses.contains (rest.getD (c - (n + 1)) "") = true
                · rw [if_pos hcond, if_pos (by
                    refine ⟨by omega, by simp; omega, ?_⟩
                    rw [hgetD]; exact hcond.2.2), hp2]
                · rw [if_neg hcond, if_neg (by
                    intro ⟨h1, h2, h3⟩
                    apply hcond
                    refine ⟨by omega, by simp at h2; omega, ?_⟩
                    rw [← hgetD]; exact h3), hp2]
          · rw [if_neg hs] at hz; simp at hz
    · rw [if_neg hf] at h
      have hrec := floodLoop_getElem? rest (n + 1) pred out h
      by_cases hcn : c = n
      · subst hcn
        rw [hrec c, if_neg (by omega), if_neg]
        intro ⟨_, _, hcont⟩
        rw [Nat.sub_self, List.getD_cons_zero] at hcont
        exact hf hcont
      · rcases Nat.lt_or_ge c n with hlt | hge
        · rw [hrec c, if_neg (by omega), if_neg (by omega)]
        · have hgetD : (name :: rest).getD (c - n) "" = rest.getD (c - (n + 1)) "" := by
            have : c - n = (c - (n + 1)) + 1 := by omega
            rw [this, List.getD_cons_succ]
          rw [hrec c]
          by_cases hcond : n + 1 ≤ c ∧ c - (n + 1) < rest.length ∧
              floodClasses.contains (rest.getD (c - (n + 1)) "") = true
          · rw [if_pos hcond, if_pos (by
              refine ⟨by omega, by simp; omega, ?_⟩
              rw [hgetD]; exact hcond.2.2)]
          · rw [if_neg hcond, if_neg (by
              intro ⟨h1, h2, h3⟩
              apply hcond
              refine ⟨by omega, by simp at h2; omega, ?_⟩
              rw [← hgetD]; exact h3)]

theorem floodLoop_some {m : Mask} {h w : ℕ} (hm : rect2 m h w) :
    ∀ (cs : List String) (n : ℕ) (pred : Arr3),
      (∀ p ∈ pred, rect2 p h w) →
      (∀ k, k < cs.length → floodClasses.contains (cs.getD k "") = true →
        n + k < pred.length) →
      ∃ out, floodLoop m n cs pred = some out
  | [], n, pred, _, _ => ⟨pred, rfl⟩
  | name :: rest, n, pred, hrect, hidx => by
    simp only [floodLoop]
    by_cases hf : floodClasses.contains name
    · rw [if_pos hf]
      have hnlen : n < pred.length := by
        have := hidx 0 (by simp) (by rw [List.getD_cons_zero]; exact hf)
        omega
      have hp : pred[n]? = some pred[n] := List.getElem?_eq_getElem hnlen
      have hshape : sameShape2 pred[n] m = true :=
        sameShape2_of_rect2 (hrect _ (List.getElem_mem hnlen)) hm
      have hz : setZeroAt pred n m = some (pred.set n (maskZero2 pred[n] m)) := by
        unfold setZeroAt
        rw [hp]
        dsimp only
        rw [if_pos hshape]
      rw [hz]
      dsimp only
      apply floodLoop_some hm rest (n + 1) _
      · intro p hpmem
        rcases List.mem_or_eq_of_mem_set hpmem with hold | hnew
        · exact hrect _ hold
        · rw [hnew]
          exact rect2_maskZero2 (hrect _ (List.getElem_mem hnlen)) hm
      · intro k hk hcont
        rw [List.length_set]
        have := hidx (k + 1) (by simp; omega) (by rw [List.getD_cons_succ]; exact hcont)
        omega
    · rw [if_neg hf]
      apply floodLoop_some hm rest (n + 1) pred hrect
      intro k hk hcont
      have := hidx (k + 1) (by simp; omega) (by rw [List.getD_cons_succ]; exact hcont)
      omega

theorem floodLoop_none {m : Mask} {h w H W : ℕ} (hm : rect2 m h w)
    (hmm : H ≠ h ∨ (W ≠ w ∧ 0 < H)) :
    ∀ (cs : List String) (n : ℕ) (pred : Arr3),
      (∀ p ∈ pred, rect2 p H W) →
      (∃ s ∈ cs, floodClasses.contains s = true) →
      floodLoop m n cs pred = none
  | [], _, _, _, hex => by simp at hex
  | name :: rest, n, pred, hrect, hex => by
    simp only [floodLoop]
    by_cases hf : floodClasses.contains name
    · rw [if_pos hf]
      cases hp : pred[n]? with
      | none =>
        unfold setZeroAt
        rw [hp]
      | some plane =>
        have hplane : plane ∈ pred := by
          have := (List.getElem?_eq_some_iff.mp hp)
          obtain ⟨hlt, heq⟩ := this
          rw [← heq]
          exact List.getElem_mem hlt
        have hshape : sameShape2 plane m = false := sameShape2_ne (hrect _ hplane) hm hmm
        unfold setZeroAt
        rw [hp]
        dsimp only
        rw [hshape, if_neg Bool.false_ne_true]
    · rw [if_neg hf]
      apply floodLoop_none hm hmm rest (n + 1) pred hrect
      obtain ⟨s, hs, hsf⟩ := hex
      rcases List.mem_cons.mp hs with rfl | hmem
      · exact absurd hsf hf
      · exact ⟨s, hmem, hsf⟩

theorem maskFloodChannels_spec {pred : Arr3} {classes : List String} {m : Mask}
    {C h w : ℕ} (hr : rect3 pred C h w) (hm : rect2 m h w)
    (hidx : classes.length ≤ C) :
    ∃ out, maskFloodChannels pred classes m = some out ∧ rect3 out C h w ∧
      ∀ c < C, ∀ i < h, ∀ j < w,
        at3 out c i j =
          if c < classes.length ∧ floodClasses.contains (classes.getD c "") = true ∧
              atM m i j = true
          then 0 else at3 pred c i j := by
  obtain ⟨out, hout⟩ := floodLoop_some hm classes 0 pred hr.2
    (fun k hk _ => by rw [hr.1]; omega)
  have hget := floodLoop_getElem? classes 0 pred out hout
  have hlen : out.length = pred.length := floodLoop_length classes 0 pred out hout
  have houtr : rect3 out C h w := by
    refine ⟨by rw [hlen, hr.1], ?_⟩
    intro p hp
    rw [List.mem_iff_getElem] at hp
    obtain ⟨c, hcl, rfl⟩ := hp
    have := hget c
    rw [List.getElem?_eq_getElem hcl] at this
    have hcp : c < pred.length := by omega
    rw [List.getElem?_eq_getElem hcp] at this
    by_cases hcond : 0 ≤ c ∧ c - 0 < classes.length ∧
        floodClasses.contains (classes.getD (c - 0) "") = true
    · rw [if_pos hcond] at this
      simp only [Option.map_some'] at this
      injection this with this
      rw [this]
      exact rect2_maskZero2 (hr.2 _ (List.getElem_mem hcp)) hm
    · rw [if_neg hcond] at this
      injection this with this
      rw [this]
      exact hr.2 _ (List.getElem_mem hcp)
  refine ⟨out, hout, houtr, ?_⟩
  intro c hc i hi j hj
  have hcl : c < out.length := by rw [hlen, hr.1]; exact hc
  have hcp : c < pred.length := by rw [hr.1]; exact hc
  have := hget c
  rw [List.getElem?_eq_getElem hcl, List.getElem?_eq_getElem hcp] at this
  unfold at3
  rw [getD_of_lt _ _ hcl, getD_of_lt _ _ hcp]
  by_cases hcond : c < classes.length ∧ floodClasses.contains (classes.getD c "") = true
  · have hcond0 : 0 ≤ c ∧ c - 0 < classes.length ∧
        floodClasses.contains (classes.getD (c - 0) "") = true := by
      simpa using hcond
    rw [if_pos hcond0] at this
    simp only [Option.map_some'] at this
    injection this with this
    rw [this]
    have hmz := at2_maskZero2 (hr.2 _ (List.getElem_mem hcp)) hm hi hj
    unfold at2 at hmz
    rw [hmz]
    by_cases hmask : atM m i j = true
    · rw [if_pos hmask, if_pos ⟨hcond.1, hcond.2, hmask⟩]
    · rw [if_neg hmask, if_neg (fun hx => hmask hx.2.2)]
  · have hcond0 : ¬(0 ≤ c ∧ c - 0 < classes.length ∧
        floodClasses.contains (classes.getD (c - 0) "") = true) := by
      simpa using fun h1 h2 => hcond ⟨h1, h2⟩
    rw [if_neg hcond0] at this
    injection this with this
    rw [this, if_neg (fun hx => hcond ⟨hx.1, hx.2.1⟩)]

theorem maskAnd_spec {m1 m2 : Mask} {h w : ℕ} (h1 : rect2 m1 h w) (h2 : rect2 m2 h w) :
    ∃ m, maskAnd m1 m2 = some m ∧ rect2 m h w ∧
      ∀ i < h, ∀ j < w, atM m i j = (atM m1 i j && atM m2 i j) := by
  refine ⟨List.zipWith (List.zipWith and) m1 m2, ?_, ?_, ?_⟩
  · rw [maskAnd, if_pos (sameShape2_of_rect2 h1 h2)]
  · refine rect2_zipWith h1 h2 ?_
    intro r hr s hs
    rw [List.length_zipWith, h1.2 _ hr, h2.2 _ hs]
    omega
  · intro i hi j hj
    unfold atM
    rw [getD_zipWith _ [] [] [] m1 m2 i (by rw [h1.1]; exact hi) (by rw [h2.1]; exact hi)]
    rw [getD_zipWith _ false false false _ _ j (by rw [rowlen_of_rect2 h1 hi]; exact hj)
      (by rw [rowlen_of_rect2 h2 hi]; exact hj)]

theorem buildPostMask_two {oh ow : ℕ} {a b : Arr3} {ca cb h w : ℕ}
    (ha : rect3 a ca h w) (hb : rect3 b cb h w) (hca : 0 < ca) (hcb : 0 < cb) :
    ∃ pm, buildPostMask oh ow (some a) (some b) = some pm ∧ rect2 pm h w ∧
      ∀ i < h, ∀ j < w,
        (atM pm i j = true ↔ chanSumAt a i j = 0 ∧ chanSumAt b i j = 0) := by
  obtain ⟨hsa, hea⟩ := sumAxis0_spec ha hca
  obtain ⟨hsb, heb⟩ := sumAxis0_spec hb hcb
  have hma : rect2 (eqZeroMask (sumAxis0 a)) h w := rect2_eqZeroMask hsa
  have hmb : rect2 (eqZeroMask (sumAxis0 b)) h w := rect2_eqZeroMask hsb
  obtain ⟨m, hm, hmr, hme⟩ := maskAnd_spec hma hmb
  refine ⟨m, ?_, hmr, ?_⟩
  · exact hm
  · intro i hi j hj
    rw [hme i hi j hj]
    have h1 := atM_eqZeroMask hsa hi hj
    have h2 := atM_eqZeroMask hsb hi hj
    rw [hea i hi j hj] at h1
    rw [heb i hi j hj] at h2
    rw [Bool.and_eq_true]
    exact ⟨fun ⟨x1, x2⟩ => ⟨h1.mp x1, h2.mp x2⟩,
      fun ⟨x1, x2⟩ => ⟨h1.mpr x1, h2.mpr x2⟩⟩

theorem contains_iff_mem_str (cs : List String) (s : String) :
    cs.contains s = true ↔ s ∈ cs := by simp

/-- C3: with two post-event images configured, the post-nodata mask is true at
a pixel iff the channel-sum of post-image A is zero there AND the channel-sum
of post-image B is zero there; the masking step zeroes exactly the channels
whose class name is a flood-type class at exactly those pixels, and leaves
every other channel unchanged at every pixel. -/
theorem postmask_two_and_flood (a b pred : Arr3) (classes : List String)
    (oh ow ca cb C h w : ℕ) (ha : rect3 a ca h w) (hb : rect3 b cb h w)
    (hpred : rect3 pred C h w) (hca : 0 < ca) (hcb : 0 < cb)
    (hcls : classes.length ≤ C) :
    ∃ pm out, buildPostMask oh ow (some a) (some b) = some pm ∧
      (∀ i < h, ∀ j < w,
        (atM pm i j = true ↔ chanSumAt a i j = 0 ∧ chanSumAt b i j = 0)) ∧
      maskFloodChannels pred classes pm = some out ∧
      ∀ c < C, ∀ i < h, ∀ j < w,
        at3 out c i j =
          if c < classes.length ∧ classes.getD c "" ∈ floodClasses ∧
              chanSumAt a i j = 0 ∧ chanSumAt b i j = 0
          then 0 else at3 pred c i j := by
  obtain ⟨pm, hpm, hpmr, hpme⟩ := @buildPostMask_two oh ow a b ca cb h w ha hb hca hcb
  obtain ⟨out, hout, houtr, houte⟩ := maskFloodChannels_spec hpred hpmr hcls
  refine ⟨pm, out, hpm, hpme, hout, ?_⟩
  intro c hc i hi j hj
  rw [houte c hc i hi j hj]
  by_cases hcond : c < classes.length ∧ classes.getD c "" ∈ floodClasses ∧
      chanSumAt a i j = 0 ∧ chanSumAt b i j = 0
  · rw [if_pos hcond, if_pos]
    refine ⟨hcond.1, ?_, ?_⟩
    · exact (contains_iff_mem_str _ _).mpr hcond.2.1
    · exact (hpme i hi j hj).mpr hcond.2.2
  · rw [if_neg hcond, if_neg]
    intro ⟨x1, x2, x3⟩
    exact hcond ⟨x1, (contains_iff_mem_str _ _).mp x2, (hpme i hi j hj).mp x3⟩

/-- Witness for C3 at a concrete input: both `1 × 1 × 1` post-images zero at
the single pixel, one flood class. -/
theorem postmask_two_and_flood_witness :
    ∃ pm out, buildPostMask 1 1 (some [[[0]]]) (some [[[0]]]) = some pm ∧
      (∀ i < 1, ∀ j < 1,
        (atM pm i j = true ↔ chanSumAt [[[0]]] i j = 0 ∧ chanSumAt [[[0]]] i j = 0)) ∧
      maskFloodChannels [[[1]]] ["flood"] pm = some out ∧
      ∀ c < 1, ∀ i < 1, ∀ j < 1,
        at3 out c i j =
          if c < (["flood"] : List String).length ∧
              (["flood"] : List String).getD c "" ∈ floodClasses ∧
              chanSumAt [[[0]]] i j = 0 ∧ chanSumAt [[[0]]] i j = 0
          then 0 else at3 [[[1]]] c i j :=
  postmask_two_and_flood [[[0]]] [[[0]]] [[[1]]] ["flood"] 1 1 1 1 1 1 1
    (by unfold rect3 rect2; decide) (by unfold rect3 rect2; decide)
    (by unfold rect3 rect2; decide) (by omega) (by omega) (by simp)

theorem maskFloodChannels_allFalse_id {pred : Arr3} {classes : List String}
    {C oh ow : ℕ} (hr : rect3 pred C oh ow) (hcls : classes.length ≤ C) :
    maskFloodChannels pred classes (allFalseMask oh ow) = some pred := by
  obtain ⟨out, hout⟩ := floodLoop_some (rect2_allFalse oh ow) classes 0 pred hr.2
    (fun k hk _ => by rw [hr.1]; omega)
  have hget := floodLoop_getElem? classes 0 pred out hout
  have hext : out = pred := by
    apply List.ext_getElem?
    intro c
    rw [hget c]
    by_cases hcond : 0 ≤ c ∧ c - 0 < classes.length ∧
        floodClasses.contains (classes.getD (c - 0) "") = true
    · rw [if_pos hcond]
      cases hp : pred[c]? with
      | none => rfl
      | some p =>
        have hmem : p ∈ pred := by
          obtain ⟨hlt, heq⟩ := List.getElem?_eq_some_iff.mp hp
          rw [← heq]; exact List.getElem_mem hlt
        simp only [Option.map_some']
        rw [maskZero2_allFalse (hr.2 _ hmem)]
    · rw [if_neg hcond]
  rw [hext] at hout
  exact hout

/-- C10: with zero post-event images configured, the post mask is built as an
all-false array of shape `(orig_h, orig_w)` (not the probability map's current
shape); the flood-channel assignment leaves every channel unchanged whenever
the map's spatial shape equals `(orig_h, orig_w)`, and it is well-defined only
under that shape precondition: with a flood class present and a differing
spatial shape it raises. -/
theorem zero_post_mask_frame (pred : Arr3) (classes : List String)
    (oh ow C H W : ℕ) :
    buildPostMask oh ow none none = some (allFalseMask oh ow) ∧
    rect2 (allFalseMask oh ow) oh ow ∧
    (rect3 pred C oh ow → classes.length ≤ C →
      maskFloodChannels pred classes (allFalseMask oh ow) = some pred) ∧
    (rect3 pred C H W → 0 < H → (H ≠ oh ∨ W ≠ ow) →
      (∃ s ∈ classes, s ∈ floodClasses) →
      maskFloodChannels pred classes (allFalseMask oh ow) = none) := by
  refine ⟨rfl, rect2_allFalse oh ow, ?_, ?_⟩
  · intro hr hcls
    exact maskFloodChannels_allFalse_id hr hcls
  · intro hr hH hne hex
    apply floodLoop_none (rect2_allFalse oh ow) ?_ classes 0 pred hr.2
    · obtain ⟨s, hs, hsf⟩ := hex
      exact ⟨s, hs, (contains_iff_mem_str _ _).mpr hsf⟩
    · rcases hne with hne | hne
      · exact Or.inl hne
      · by_cases hov : H = oh
        · exact Or.inr ⟨hne, hH⟩
        · exact Or.inl hov

/-- Witness for C10 at concrete inputs: identity on a matching `1 × 1 × 1`
map, failure on a `1 × 2 × 1` map with a flood class. -/
theorem zero_post_mask_frame_witness :
    maskFloodChannels [[[1]]] ["flood"] (allFalseMask 1 1) = some [[[1]]] ∧
    maskFloodChannels [[[1], [1]]] ["flood"] (allFalseMask 1 1) = none :=
  ⟨(zero_post_mask_frame [[[1]]] ["flood"] 1 1 1 2 1).2.2.1
      (by unfold rect3 rect2; decide) (by simp),
   (zero_post_mask_frame [[[1], [1]]] ["flood"] 1 1 1 2 1).2.2.2
      (by unfold rect3 rect2; decide) (by omega) (by omega)
      ⟨"flood", by simp, by unfold floodClasses; simp⟩⟩

/-- `np.zeros([h, w])`. -/
def zeros2 (h w : ℕ) : Plane := List.replicate h (List.replicate w 0)

/-- `np.zeros([c, h, w])`: the per-sample accumulation buffer is
`zeros3 (len classes) 1300 1300` (line 172-175). -/
def zeros3 (c h w : ℕ) : Arr3 := List.replicate c (zeros2 h w)

/-- `pred * weight`: scalar multiplication of every entry. -/
def smul3 (q : ℚ) (a : Arr3) : Arr3 := a.map (List.map (List.map (fun x => q * x)))

/-- First-axis extent. -/
def dim0 (a : Arr3) : ℕ := a.length

/-- The shape triple numpy reads off a rectangular 3-d array. -/
def dims3 (a : Arr3) : ℕ × ℕ × ℕ := (dim0 a, dim1 a, dim2 a)

/-- Numpy broadcasting of one axis: an extent-1 source axis is read at index
0 whatever the target index is. -/
def bcastIdx (srcExtent idx : ℕ) : ℕ := if srcExtent == 1 then 0 else idx

/-- `buf += src` (line 231): numpy in-place addition, defined exactly when
each source axis extent equals the buffer's or is 1 (broadcasting); raises
otherwise. -/
def addInPlace (buf src : Arr3) : Option Arr3 :=
  if (dim0 src == 1 || dim0 src == dim0 buf) && (dim1 src == 1 || dim1 src == dim1 buf)
      && (dim2 src == 1 || dim2 src == dim2 buf) then
    some ((List.range (dim0 buf)).map fun ci => (List.range (dim1 buf)).map fun i =>
      (List.range (dim2 buf)).map fun j =>
        at3 buf ci i j + at3 src (bcastIdx (dim0 src) ci) (bcastIdx (dim1 src) i) (bcastIdx (dim2 src) j))
  else none

/-- The per-sample ensemble accumulation across variants:
`acc += rectified * weight` for each variant in order. -/
def accumulate (buf : Arr3) : List (Arr3 × ℚ) → Option Arr3
  | [] => some buf
  | (p, wt) :: rest => do
    let buf2 ← addInPlace buf (smul3 wt p)
    accumulate buf2 rest

/-- The raw averaging weights from `prepare_test_dataloaders`: `1.0` for the
default dataloader plus `1.0` per enabled flip TTA. -/
def rawWeights (ttaHflip ttaVflip : Bool) : List ℚ :=
  [1] ++ (if ttaHflip then [1] else []) ++ (if ttaVflip then [1] else [])

/-- The per-dataloader horizontal-flip flags from `prepare_test_dataloaders`. -/
def flagsHflip (ttaHflip ttaVflip : Bool) : List Bool :=
  [false] ++ (if ttaHflip then [true] else []) ++ (if ttaVflip then [false] else [])

/-- The per-dataloader vertical-flip flags from `prepare_test_dataloaders`. -/
def flagsVflip (ttaHflip ttaVflip : Bool) : List Bool :=
  [false] ++ (if ttaHflip then [false] else []) ++ (if ttaVflip then [true] else [])

/-- `weights /= weights.sum()` (line 133). -/
def normalizeWeights (ws : List ℚ) : List ℚ := ws.map (fun x => x / ws.sum)

theorem rect2_zeros2 (h w : ℕ) : rect2 (zeros2 h w) h w := by
  refine ⟨by rw [zeros2, List.length_replicate], ?_⟩
  intro r hr
  rw [List.eq_of_mem_replicate hr, List.length_replicate]

theorem rect3_zeros3 (c h w : ℕ) : rect3 (zeros3 c h w) c h w := by
  refine ⟨by rw [zeros3, List.length_replicate], ?_⟩
  intro p hp
  rw [List.eq_of_mem_replicate hp]
  exact rect2_zeros2 h w

theorem at3_zeros3 (c h w ci i j : ℕ) : at3 (zeros3 c h w) ci i j = 0 := by
  unfold at3 zeros3 zeros2
  have houter : (List.replicate c (List.replicate h (List.replicate w (0:ℚ)))).getD ci [] =
      if ci < c then List.replicate h (List.replicate w 0) else [] := by
    rcases Nat.lt_or_ge ci c with hc | hc
    · rw [getD_of_lt _ _ (by simpa using hc), List.getElem_replicate, if_pos hc]
    · rw [getD_of_le _ _ (by simpa using hc), if_neg (by omega)]
  rw [houter]
  rcases Nat.lt_or_ge ci c with hc | hc
  · rw [if_pos hc]
    have hmid : (List.replicate h (List.replicate w (0:ℚ))).getD i [] =
        if i < h then List.replicate w 0 else [] := by
      rcases Nat.lt_or_ge i h with hi | hi
      · rw [getD_of_lt _ _ (by simpa using hi), List.getElem_replicate, if_pos hi]
      · rw [getD_of_le _ _ (by simpa using hi), if_neg (by omega)]
    rw [hmid]
    rcases Nat.lt_or_ge i h with hi | hi
    · rw [if_pos hi]
      rcases Nat.lt_or_ge j w with hj | hj
      · rw [getD_of_lt _ _ (by simpa using hj), List.getElem_replicate]
      · rw [getD_of_le _ _ (by simpa using hj)]
    · rw [if_neg (by omega)]
      rfl
  · rw [if_neg (by omega)]
    rfl

theorem rect3_smul3 {a : Arr3} {c h w : ℕ} (hr : rect3 a c h w) (q : ℚ) :
    rect3 (smul3 q a) c h w := by
  refine ⟨by rw [smul3, List.length_map]; exact hr.1, ?_⟩
  intro p hp
  rw [smul3, List.mem_map] at hp
  obtain ⟨p0, hp0, rfl⟩ := hp
  refine ⟨by rw [List.length_map]; exact (hr.2 _ hp0).1, ?_⟩
  intro r hr2
  rw [List.mem_map] at hr2
  obtain ⟨r0, hr0, rfl⟩ := hr2
  rw [List.length_map]
  exact (hr.2 _ hp0).2 _ hr0

theorem at3_smul3 {a : Arr3} {c h w : ℕ} (hr : rect3 a c h w) (q : ℚ)
    {ci i j : ℕ} (hc : ci < c) (hi : i < h) (hj : j < w) :
    at3 (smul3 q a) ci i j = q * at3 a ci i j := by
  unfold smul3 at3
  have hcl : ci < a.length := by rw [hr.1]; exact hc
  rw [getD_map_of_lt _ _ [] _ hcl]
  have hrow : rect2 (a.getD ci []) h w := by
    rw [getD_of_lt _ _ hcl]
    exact hr.2 _ (List.getElem_mem hcl)
  have hil : i < (a.getD ci []).length := by rw [hrow.1]; exact hi
  rw [getD_map_of_lt _ _ [] _ hil]
  have hjl : j < ((a.getD ci []).getD i []).length := by
    rw [rowlen_of_rect2 hrow hi]; exact hj
  rw [getD_map_of_lt _ _ 0 _ hjl]

theorem at3_rangeMap (f : ℕ → ℕ → ℕ → ℚ) {c h w ci i j : ℕ}
    (hc : ci < c) (hi : i < h) (hj : j < w) :
    at3 ((List.range c).map fun ci => (List.range h).map fun i =>
      (List.range w).map fun j => f ci i j) ci i j = f ci i j := by
  unfold at3
  have r1 : ci < (List.range c).length := by rw [List.length_range]; exact hc
  have r2 : i < (List.range h).length := by rw [List.length_range]; exact hi
  have r3 : j < (List.range w).length := by rw [List.length_range]; exact hj
  rw [getD_map_of_lt _ (List.range c) 0 [] r1, getD_of_lt (List.range c) 0 r1,
    List.getElem_range]
  rw [getD_map_of_lt _ (List.range h) 0 [] r2, getD_of_lt (List.range h) 0 r2,
    List.getElem_range]
  rw [getD_map_of_lt _ (List.range w) 0 0 r3, getD_of_lt (List.range w) 0 r3,
    List.getElem_range]

theorem rect3_rangeMap (f : ℕ → ℕ → ℕ → ℚ) (c h w : ℕ) :
    rect3 ((List.range c).map fun ci => (List.range h).map fun i =>
      (List.range w).map fun j => f ci i j) c h w := by
  refine ⟨by rw [List.length_map, List.length_range], ?_⟩
  intro p hp
  rw [List.mem_map] at hp
  obtain ⟨ci, _, rfl⟩ := hp
  refine ⟨by rw [List.length_map, List.length_range], ?_⟩
  intro r hr
  rw [List.mem_map] at hr
  obtain ⟨i, _, rfl⟩ := hr
  rw [List.length_map, List.length_range]

theorem addInPlace_spec {buf src : Arr3} {c h w c2 h2 w2 : ℕ}
    (hbuf : rect3 buf c h w) (hsrc : rect3 src c2 h2 w2)
    (hc : 0 < c) (hh : 0 < h) (hc2 : 0 < c2) (hh2 : 0 < h2)
    (hbc : (c2 = 1 ∨ c2 = c) ∧ (h2 = 1 ∨ h2 = h) ∧ (w2 = 1 ∨ w2 = w)) :
    ∃ out, addInPlace buf src = some out ∧ rect3 out c h w ∧
      ∀ ci < c, ∀ i < h, ∀ j < w,
        at3 out ci i j =
          at3 buf ci i j + at3 src (bcastIdx c2 ci) (bcastIdx h2 i) (bcastIdx w2 j) := by
  have e1 : dim0 src = c2 := hsrc.1
  have e2 : dim1 src = h2 := dim1_of_rect3 hsrc hc2
  have e3 : dim2 src = w2 := dim2_of_rect3 hsrc hc2 hh2
  have e4 : dim0 buf = c := hbuf.1
  have e5 : dim1 buf = h := dim1_of_rect3 hbuf hc
  have e6 : dim2 buf = w := dim2_of_rect3 hbuf hc hh
  refine ⟨(List.range c).map fun ci => (List.range h).map fun i =>
    (List.range w).map fun j =>
      at3 buf ci i j + at3 src (bcastIdx c2 ci) (bcastIdx h2 i) (bcastIdx w2 j), ?_, ?_, ?_⟩
  · unfold addInPlace
    rw [e1, e2, e3, e4, e5, e6, if_pos]
    simp only [Bool.and_eq_true, Bool.or_eq_true, beq_iff_eq]
    exact ⟨⟨hbc.1, hbc.2.1⟩, hbc.2.2⟩
  · exact rect3_rangeMap _ c h w
  · intro ci hci i hi j hj
    exact at3_rangeMap _ hci hi hj

theorem addInPlace_isSome_iff {buf src : Arr3} {c h w c2 h2 w2 : ℕ}
    (hbuf : rect3 buf c h w) (hsrc : rect3 src c2 h2 w2)
    (hc : 0 < c) (hh : 0 < h) (hc2 : 0 < c2) (hh2 : 0 < h2) :
    (addInPlace buf src).isSome = true ↔
      ((c2 = 1 ∨ c2 = c) ∧ (h2 = 1 ∨ h2 = h) ∧ (w2 = 1 ∨ w2 = w)) := by
  have e1 : dim0 src = c2 := hsrc.1
  have e2 : dim1 src = h2 := dim1_of_rect3 hsrc hc2
  have e3 : dim2 src = w2 := dim2_of_rect3 hsrc hc2 hh2
  have e4 : dim0 buf = c := hbuf.1
  have e5 : dim1 buf = h := dim1_of_rect3 hbuf hc
  have e6 : dim2 buf = w := dim2_of_rect3 hbuf hc hh
  unfold addInPlace
  rw [e1, e2, e3, e4, e5, e6]
  by_cases hcond : (c2 = 1 ∨ c2 = c) ∧ (h2 = 1 ∨ h2 = h) ∧ (w2 = 1 ∨ w2 = w)
  · rw [if_pos]
    · simpa using hcond
    · simp only [Bool.and_eq_true, Bool.or_eq_true, beq_iff_eq]
      exact ⟨⟨hcond.1, hcond.2.1⟩, hcond.2.2⟩
  · rw [if_neg]
    · simpa using hcond
    · simp only [Bool.and_eq_true, Bool.or_eq_true, beq_iff_eq]
      intro ⟨⟨x1, x2⟩, x3⟩
      exact hcond ⟨x1, x2, x3⟩

theorem bcastIdx_self {n idx : ℕ} (h : idx < n) : bcastIdx n idx = idx := by
  unfold bcastIdx
  by_cases h1 : n = 1
  · subst h1
    rw [if_pos (by rfl)]
    omega
  · rw [if_neg (by simpa using h1)]

theorem accumulate_entry_sum {c h w : ℕ} (hc : 0 < c) (hh : 0 < h) (hw : 0 < w) :
    ∀ (pairs : List (Arr3 × ℚ)) (buf : Arr3), rect3 buf c h w →
      (∀ pw ∈ pairs, rect3 pw.1 c h w) →
      ∃ out, accumulate buf pairs = some out ∧ rect3 out c h w ∧
        ∀ ci < c, ∀ i < h, ∀ j < w,
          at3 out ci i j =
            at3 buf ci i j + (pairs.map (fun pw => pw.2 * at3 pw.1 ci i j)).sum
  | [], buf, hbuf, _ => ⟨buf, rfl, hbuf, by
      intro ci hci i hi j hj
      simp⟩
  | (p, wt) :: rest, buf, hbuf, hall => by
    have hp : rect3 p c h w := hall (p, wt) (by simp)
    have hps : rect3 (smul3 wt p) c h w := rect3_smul3 hp wt
    obtain ⟨buf2, hadd, hbuf2, he⟩ := addInPlace_spec hbuf hps hc hh hc hh
      ⟨Or.inr rfl, Or.inr rfl, Or.inr rfl⟩
    obtain ⟨out, hacc, hout, hsum⟩ := accumulate_entry_sum hc hh hw rest buf2 hbuf2
      (fun pw hpw => hall pw (by simp [hpw]))
    refine ⟨out, ?_, hout, ?_⟩
    · unfold accumulate
      rw [hadd]
      exact hacc
    · intro ci hci i hi j hj
      rw [hsum ci hci i hi j hj, he ci hci i hi j hj,
        bcastIdx_self hci, bcastIdx_self hi, bcastIdx_self hj,
        at3_smul3 hp wt hci hi hj]
      simp [add_assoc]

theorem normalizeWeights_sum_one (tH tV : Bool) :
    (normalizeWeights (rawWeights tH tV)).sum = 1 := by
  cases tH <;> cases tV <;> simp [normalizeWeights, rawWeights] <;> norm_num

theorem normalizeWeights_nonneg (tH tV : Bool) :
    ∀ x ∈ normalizeWeights (rawWeights tH tV), 0 ≤ x := by
  cases tH <;> cases tV <;> simp [normalizeWeights, rawWeights] <;> norm_num

theorem wsum_entry_bound (ci i j : ℕ) :
    ∀ (l : List (Arr3 × ℚ)),
      (∀ pw ∈ l, 0 ≤ pw.2 ∧ 0 ≤ at3 pw.1 ci i j ∧ at3 pw.1 ci i j ≤ 1) →
      0 ≤ (l.map (fun pw => pw.2 * at3 pw.1 ci i j)).sum ∧
        (l.map (fun pw => pw.2 * at3 pw.1 ci i j)).sum ≤ (l.map Prod.snd).sum
  | [], _ => by simp
  | (p, wt) :: rest, hall => by
    obtain ⟨hw, hx0, hx1⟩ := hall (p, wt) (by simp)
    obtain ⟨ih0, ih1⟩ := wsum_entry_bound ci i j rest (fun pw hpw => hall pw (by simp [hpw]))
    constructor
    · simp only [List.map_cons, List.sum_cons]
      exact add_nonneg (mul_nonneg hw hx0) ih0
    · simp only [List.map_cons, List.sum_cons]
      have hterm : wt * at3 p ci i j ≤ wt := by
        calc wt * at3 p ci i j ≤ wt * 1 := mul_le_mul_of_nonneg_left hx1 hw
        _ = wt := mul_one wt
      exact add_le_add hterm ih1

/-- C2: if every active variant's rectified map is rectangular with entries in
`[0, 1]`, then the per-sample accumulation `acc += map * weight` over the
normalized dataloader weights, starting from the zero buffer, leaves every
entry of the accumulated map in `[0, 1]`. -/
theorem accumulated_in_unit_interval (tH tV : Bool) (nC : ℕ) (preds : List Arr3)
    (hnC : 0 < nC)
    (hlen : preds.length = (normalizeWeights (rawWeights tH tV)).length)
    (hrect : ∀ p ∈ preds, rect3 p nC 1300 1300)
    (hbd : ∀ p ∈ preds, ∀ c < nC, ∀ i < 1300, ∀ j < 1300,
      0 ≤ at3 p c i j ∧ at3 p c i j ≤ 1) :
    ∃ acc, accumulate (zeros3 nC 1300 1300)
        (preds.zip (normalizeWeights (rawWeights tH tV))) = some acc ∧
      ∀ c < nC, ∀ i < 1300, ∀ j < 1300, 0 ≤ at3 acc c i j ∧ at3 acc c i j ≤ 1 := by
  obtain ⟨out, hacc, hout, hentry⟩ := accumulate_entry_sum hnC (by omega) (by omega)
    (preds.zip (normalizeWeights (rawWeights tH tV))) (zeros3 nC 1300 1300)
    (rect3_zeros3 _ _ _) (fun pw hpw => hrect _ (List.of_mem_zip hpw).1)
  refine ⟨out, hacc, ?_⟩
  intro c hc i hi j hj
  rw [hentry c hc i hi j hj, at3_zeros3, zero_add]
  have hb := wsum_entry_bound c i j (preds.zip (normalizeWeights (rawWeights tH tV)))
    (fun pw hpw => by
      obtain ⟨h1, h2⟩ := List.of_mem_zip hpw
      exact ⟨normalizeWeights_nonneg tH tV _ h2, (hbd _ h1 c hc i hi j hj).1,
        (hbd _ h1 c hc i hi j hj).2⟩)
  refine ⟨hb.1, le_trans hb.2 ?_⟩
  rw [List.map_snd_zip _ _ (by omega), normalizeWeights_sum_one]

/-- Witness for C2 at a concrete input: a single variant (no TTA), one class,
the all-zero probability map. -/
theorem accumulated_in_unit_interval_witness :
    ∃ acc, accumulate (zeros3 1 1300 1300)
        ([zeros3 1 1300 1300].zip (normalizeWeights (rawWeights false false))) = some acc ∧
      ∀ c < 1, ∀ i < 1300, ∀ j < 1300, 0 ≤ at3 acc c i j ∧ at3 acc c i j ≤ 1 :=
  accumulated_in_unit_interval false false 1 [zeros3 1 1300 1300] (by omega)
    (by simp [normalizeWeights, rawWeights])
    (by
      intro p hp
      rw [List.mem_singleton] at hp
      subst hp
      exact rect3_zeros3 1 1300 1300)
    (by
      intro p hp c _ i _ j _
      rw [List.mem_singleton] at hp
      subst hp
      rw [at3_zeros3]
      norm_num)

/-- C9 (amended): the per-sample accumulation buffer has fixed shape
`(C, 1300, 1300)` independent of the sample's original size, and the in-place
addition of a rectified map into it is well-defined exactly when each of the
map's axis extents is 1300-compatible under numpy broadcasting (equal to the
buffer's extent or to 1); in particular it also succeeds for degenerate
extent-1 axes, not only for an exactly `1300 × 1300` map. -/
theorem buffer_fixed_and_broadcast_iff (nC c2 h2 w2 : ℕ) (q : ℚ) (src : Arr3)
    (hsrc : rect3 src c2 h2 w2) (hnC : 0 < nC) (hc2 : 0 < c2) (hh2 : 0 < h2) :
    dims3 (zeros3 nC 1300 1300) = (nC, 1300, 1300) ∧
    ((addInPlace (zeros3 nC 1300 1300) (smul3 q src)).isSome = true ↔
      ((c2 = 1 ∨ c2 = nC) ∧ (h2 = 1 ∨ h2 = 1300) ∧ (w2 = 1 ∨ w2 = 1300))) := by
  constructor
  · unfold dims3
    rw [show dim0 (zeros3 nC 1300 1300) = nC from (rect3_zeros3 nC 1300 1300).1,
      dim1_of_rect3 (rect3_zeros3 nC 1300 1300) hnC,
      dim2_of_rect3 (rect3_zeros3 nC 1300 1300) hnC (by omega)]
  · exact addInPlace_isSome_iff (rect3_zeros3 nC 1300 1300) (rect3_smul3 hsrc q)
      hnC (by omega) hc2 hh2

/-- Counterexample for C9 as stated: the in-place addition also succeeds for a
`1 × 1 × 1` rectified map (broadcasting), although its original size differs
from `1300 × 1300`. -/
theorem buffer_add_succeeds_on_small :
    (addInPlace (zeros3 1 1300 1300) (smul3 1 [[[0]]])).isSome = true ∧
      (1 : ℕ) ≠ 1300 := by
  constructor
  · exact (addInPlace_isSome_iff (rect3_zeros3 1 1300 1300)
      (rect3_smul3 (show rect3 [[[(0:ℚ)]]] 1 1 1 by unfold rect3 rect2; decide) 1)
      (by omega) (by omega) (by omega) (by omega)).mpr
      ⟨Or.inl rfl, Or.inl rfl, Or.inl rfl⟩
  · omega

/-- Witness for C9's amended theorem at a concrete input. -/
theorem buffer_fixed_and_broadcast_iff_witness :
    dims3 (zeros3 2 1300 1300) = (2, 1300, 1300) ∧
    ((addInPlace (zeros3 2 1300 1300) (smul3 1 [[[0]]])).isSome = true ↔
      (((1:ℕ) = 1 ∨ (1:ℕ) = 2) ∧ ((1:ℕ) = 1 ∨ (1:ℕ) = 1300) ∧
        ((1:ℕ) = 1 ∨ (1:ℕ) = 1300))) :=
  buffer_fixed_and_broadcast_iff 2 1 1 1 1 [[[0]]]
    (by unfold rect3 rect2; decide) (by omega) (by omega) (by omega)

theorem rect2_of_sameShape2 {α β : Type} {p : List (List α)} {m : List (List β)}
    {h w : ℕ} (hp : rect2 p h w) (hs : sameShape2 p m = true) : rect2 m h w := by
  unfold sameShape2 at hs
  have heq : p.map List.length = m.map List.length := by
    exact beq_iff_eq.mp hs
  rw [map_length_eq_replicate hp] at heq
  constructor
  · have := congrArg List.length heq
    simpa using this.symm
  · intro r hr
    have : r.length ∈ m.map List.length := List.mem_map_of_mem _ hr
    rw [← heq] at this
    exact List.eq_of_mem_replicate this

theorem floodLoop_rect {m : Mask} {C H W : ℕ} :
    ∀ (cs : List String) (n : ℕ) (pred out : Arr3),
      floodLoop m n cs pred = some out → rect3 pred C H W → rect3 out C H W
  | [], n, pred, out, h, hr => by
    simp only [floodLoop] at h
    injection h with h
    rw [← h]
    exact hr
  | name :: rest, n, pred, out, h, hr => by
    simp only [floodLoop] at h
    by_cases hf : floodClasses.contains name
    · rw [if_pos hf] at h
      cases hz : setZeroAt pred n m with
      | none => rw [hz] at h; simp at h
      | some pred2 =>
        rw [hz] at h
        dsimp only at h
        unfold setZeroAt at hz
        cases hp : pred[n]? with
        | none => rw [hp] at hz; simp at hz
        | some plane =>
          rw [hp] at hz
          dsimp only at hz
          by_cases hs : sameShape2 plane m
          · rw [if_pos hs] at hz
            injection hz with hz
            have hplane : plane ∈ pred := by
              obtain ⟨hlt, heq⟩ := List.getElem?_eq_some_iff.mp hp
              rw [← heq]; exact List.getElem_mem hlt
            have hplr : rect2 plane H W := hr.2 _ hplane
            have hmr : rect2 m H W := rect2_of_sameShape2 hplr hs
            have hr2 : rect3 pred2 C H W := by
              rw [← hz]
              refine ⟨by rw [List.length_set]; exact hr.1, ?_⟩
              intro p hpm
              rcases List.mem_or_eq_of_mem_set hpm with hold | hnew
              · exact hr.2 _ hold
              · rw [hnew]
                exact rect2_maskZero2 hplr hmr
            exact floodLoop_rect rest (n + 1) pred2 out h hr2
          · rw [if_neg hs] at hz; simp at hz
    · rw [if_neg hf] at h
      exact floodLoop_rect rest (n + 1) pred out h hr

theorem at3_of_getElem?_some {a : Arr3} {c : ℕ} {p : Plane} (h : a[c]? = some p)
    (i j : ℕ) : at3 a c i j = at2 p i j := by
  unfold at3 at2
  rw [List.getD_eq_getElem?_getD a c [], h]
  rfl

theorem at3_of_getElem?_none {a : Arr3} {c : ℕ} (h : a[c]? = none) (i j : ℕ) :
    at3 a c i j = 0 := by
  unfold at3
  rw [List.getD_eq_getElem?_getD a c [], h]
  rfl

theorem at3_congr_getElem? {a b : Arr3} {c : ℕ} (h : a[c]? = b[c]?) (i j : ℕ) :
    at3 a c i j = at3 b c i j := by
  unfold at3
  rw [List.getD_eq_getElem?_getD a c [], List.getD_eq_getElem?_getD b c [], h]

theorem at2_maskZero2_zero {p : Plane} {m : Mask} {i j : ℕ} (h0 : at2 p i j = 0) :
    at2 (maskZero2 p m) i j = 0 := by
  unfold at2 at h0
  unfold maskZero2 at2
  rcases Nat.lt_or_ge i (List.zipWith (fun row mrow =>
      List.zipWith (fun x b => if b then 0 else x) row mrow) p m).length with hi | hi
  · have hip : i < p.length := by rw [List.length_zipWith] at hi; omega
    have him : i < m.length := by rw [List.length_zipWith] at hi; omega
    rw [getD_zipWith _ [] [] [] p m i hip him]
    rcases Nat.lt_or_ge j (List.zipWith (fun x b => if b then 0 else x)
        (p.getD i []) (m.getD i [])).length with hj | hj
    · have hjp : j < (p.getD i []).length := by rw [List.length_zipWith] at hj; omega
      have hjm : j < (m.getD i []).length := by rw [List.length_zipWith] at hj; omega
      rw [getD_zipWith _ 0 false 0 _ _ j hjp hjm, h0]
      cases (m.getD i []).getD j false <;> simp
    · rw [getD_of_le _ _ hj]
  · rw [getD_of_le (List.zipWith (fun row mrow =>
        List.zipWith (fun x b => if b then 0 else x) row mrow) p m) []
        (by rw [List.length_zipWith]; rw [List.length_zipWith] at hi; omega)]
    rfl

theorem floodLoop_zero_preserve {m : Mask} {cs : List String} {n : ℕ}
    {pred out : Arr3} (h : floodLoop m n cs pred = some out) {c i j : ℕ}
    (h0 : at3 pred c i j = 0) : at3 out c i j = 0 := by
  have hget := floodLoop_getElem? cs n pred out h c
  by_cases hcond : n ≤ c ∧ c - n < cs.length ∧
      floodClasses.contains (cs.getD (c - n) "") = true
  · rw [if_pos hcond] at hget
    cases hp : pred[c]? with
    | none =>
      rw [hp] at hget
      simp only [Option.map_none'] at hget
      rw [at3_of_getElem?_none hget]
    | some q =>
      rw [hp] at hget
      simp only [Option.map_some'] at hget
      rw [at3_of_getElem?_some hget i j]
      apply at2_maskZero2_zero
      rw [← at3_of_getElem?_some hp i j]
      exact h0
  · rw [if_neg hcond] at hget
    rw [at3_congr_getElem? hget i j]
    exact h0

theorem rect3_vflip3 {a : Arr3} {c h w : ℕ} (hr : rect3 a c h w) :
    rect3 (vflip3 a) c h w := by
  refine ⟨by rw [vflip3, List.length_map]; exact hr.1, ?_⟩
  intro p hp
  rw [vflip3, List.mem_map] at hp
  obtain ⟨q, hq, rfl⟩ := hp
  refine ⟨by rw [List.length_reverse]; exact (hr.2 _ hq).1, ?_⟩
  intro r hrr
  rw [List.mem_reverse] at hrr
  exact (hr.2 _ hq).2 _ hrr

theorem rect3_hflip3 {a : Arr3} {c h w : ℕ} (hr : rect3 a c h w) :
    rect3 (hflip3 a) c h w := by
  refine ⟨by rw [hflip3, List.length_map]; exact hr.1, ?_⟩
  intro p hp
  rw [hflip3, List.mem_map] at hp
  obtain ⟨q, hq, rfl⟩ := hp
  refine ⟨by rw [List.length_map]; exact (hr.2 _ hq).1, ?_⟩
  intro r hrr
  rw [List.mem_map] at hrr
  obtain ⟨r0, hr0, rfl⟩ := hrr
  rw [List.length_reverse]
  exact (hr.2 _ hq).2 _ hr0

theorem at3_vflip3 {a : Arr3} {c h w : ℕ} (hr : rect3 a c h w) {ci i : ℕ}
    (hci : ci < c) (hi : i < h) (j : ℕ) :
    at3 (vflip3 a) ci i j = at3 a ci (h - 1 - i) j := by
  unfold vflip3 at3
  have hcl : ci < a.length := by rw [hr.1]; exact hci
  rw [getD_map_of_lt List.reverse a [] [] hcl]
  have hplane : rect2 (a.getD ci []) h w := by
    rw [getD_of_lt _ _ hcl]
    exact hr.2 _ (List.getElem_mem hcl)
  have hrev : ((a.getD ci []).reverse).getD i [] = (a.getD ci []).getD (h - 1 - i) [] := by
    have hil : i < (a.getD ci []).reverse.length := by
      rw [List.length_reverse, hplane.1]; exact hi
    have hil2 : h - 1 - i < (a.getD ci []).length := by rw [hplane.1]; omega
    rw [getD_of_lt _ _ hil, getD_of_lt _ _ hil2, List.getElem_reverse]
    congr 1
    rw [hplane.1]
  rw [hrev]

theorem at3_hflip3 {a : Arr3} {c h w : ℕ} (hr : rect3 a c h w) {ci i j : ℕ}
    (hci : ci < c) (hi : i < h) (hj : j < w) :
    at3 (hflip3 a) ci i j = at3 a ci i (w - 1 - j) := by
  unfold hflip3 at3
  have hcl : ci < a.length := by rw [hr.1]; exact hci
  rw [getD_map_of_lt (List.map List.reverse) a [] [] hcl]
  have hplane : rect2 (a.getD ci []) h w := by
    rw [getD_of_lt _ _ hcl]
    exact hr.2 _ (List.getElem_mem hcl)
  have hil : i < (a.getD ci []).length := by rw [hplane.1]; exact hi
  rw [getD_map_of_lt List.reverse _ [] [] hil]
  have hrow : ((a.getD ci []).getD i []).length = w := rowlen_of_rect2 hplane hi
  have hjl : j < ((a.getD ci []).getD i []).reverse.length := by
    rw [List.length_reverse, hrow]; exact hj
  have hjl2 : w - 1 - j < ((a.getD ci []).getD i []).length := by rw [hrow]; omega
  rw [getD_of_lt _ _ hjl, getD_of_lt _ _ hjl2, List.getElem_reverse]
  congr 1
  rw [hrow]

theorem crop_center_some_bounds {a out : Arr3} {C H W cw ch : ℕ}
    (hr : rect3 a C H W) (hC : 0 < C) (hH : 0 < H)
    (h : crop_center a cw ch = some out) : ch ≤ H ∧ cw ≤ W := by
  unfold crop_center at h
  rw [dim1_of_rect3 hr hC, dim2_of_rect3 hr hC hH] at h
  by_cases hcond : cw ≤ W ∧ ch ≤ H
  · exact ⟨hcond.2, hcond.1⟩
  · rw [if_neg hcond] at h
    simp at h

/-- The row of the pre-flip map that lands at output row `i` after vertical
inversion and the center crop to height `oh`. -/
def srcRow (vf : Bool) (H oh i : ℕ) : ℕ :=
  if vf then H - 1 - ((H - oh) / 2 + i) else (H - oh) / 2 + i

/-- The column of the pre-flip map that lands at output column `j` after
horizontal inversion and the center crop to width `ow`. -/
def srcCol (hf : Bool) (W ow j : ℕ) : ℕ :=
  if hf then W - 1 - ((W - ow) / 2 + j) else (W - ow) / 2 + j

theorem rectifySample_out {pred image : Arr3} {pA pB : Option Arr3}
    {classes : List String} {oh ow : ℕ} {hf vf : Bool} {r : Arr3} {C H W cimg : ℕ}
    (hrec : rectifySample pred image pA pB classes oh ow hf vf = some r)
    (hpred : rect3 pred C H W) (himg : rect3 image cimg H W)
    (hC : 0 < C) (hH : 0 < H) (hcimg : 0 < cimg) :
    rect3 r C oh ow ∧ oh ≤ H ∧ ow ≤ W ∧
      ∀ i < oh, ∀ j < ow,
        chanSumAt image (srcRow vf H oh i) (srcCol hf W ow j) = 0 →
        ∀ c < C, at3 r c i j = 0 := by
  unfold rectifySample at hrec
  obtain ⟨hsum0, hsum⟩ := sumAxis0_spec himg hcimg
  have hm0 : rect2 (eqZeroMask (sumAxis0 image)) H W := rect2_eqZeroMask hsum0
  obtain ⟨hset, hsetr, hsete⟩ := setZeroAllChannels_spec hpred hm0
  rw [hset] at hrec
  simp only [Option.bind_eq_bind, Option.some_bind] at hrec
  cases hbm : buildPostMask oh ow pA pB with
  | none => rw [hbm] at hrec; simp at hrec
  | some pm =>
    rw [hbm] at hrec
    simp only [Option.bind_eq_bind, Option.some_bind] at hrec
    cases hflood : maskFloodChannels (pred.map (fun plane =>
        maskZero2 plane (eqZeroMask (sumAxis0 image)))) classes pm with
    | none => rw [hflood] at hrec; simp at hrec
    | some p2 =>
      rw [hflood] at hrec
      simp only [Option.bind_eq_bind, Option.some_bind] at hrec
      have hp2 : rect3 p2 C H W := floodLoop_rect classes 0 _ p2 hflood hsetr
      have hp3 : rect3 (if vf then vflip3 p2 else p2) C H W := by
        cases vf
        · simpa using hp2
        · simpa using rect3_vflip3 hp2
      have hp4 : rect3 (if hf then hflip3 (if vf then vflip3 p2 else p2)
          else (if vf then vflip3 p2 else p2)) C H W := by
        cases hf
        · simpa using hp3
        · simpa using rect3_hflip3 hp3
      obtain ⟨hohH, howW⟩ := crop_center_some_bounds hp4 hC hH hrec
      obtain ⟨out, hcout, houtr, houte⟩ := crop_center_entry hp4 hC hH hohH howW
      rw [hcout] at hrec
      injection hrec with hrec
      subst hrec
      refine ⟨houtr, hohH, howW, ?_⟩
      intro i hi j hj hz c hc
      rw [houte c hc i hi j hj]
      have htop : (H - oh) / 2 + i < H := by
        have := Nat.div_le_self (H - oh) 2
        omega
      have hleft : (W - ow) / 2 + j < W := by
        have := Nat.div_le_self (W - ow) 2
        omega
      have hvs : srcRow vf H oh i < H := by
        unfold srcRow
        cases vf
        · rw [if_neg Bool.false_ne_true]
          exact htop
        · rw [if_pos rfl]
          omega
      have hhs : srcCol hf W ow j < W := by
        unfold srcCol
        cases hf
        · rw [if_neg Bool.false_ne_true]
          exact hleft
        · rw [if_pos rfl]
          omega
      have hstep : at3 (if hf then hflip3 (if vf then vflip3 p2 else p2)
          else (if vf then vflip3 p2 else p2)) c ((H - oh) / 2 + i) ((W - ow) / 2 + j)
          = at3 p2 c (srcRow vf H oh i) (srcCol hf W ow j) := by
        cases hf with
        | false =>
          cases vf with
          | false => rfl
          | true => exact at3_vflip3 hp2 hc htop _
        | true =>
          cases vf with
          | false => exact at3_hflip3 hp2 hc htop hleft
          | true =>
            calc at3 (hflip3 (vflip3 p2)) c ((H - oh) / 2 + i) ((W - ow) / 2 + j)
                = at3 (vflip3 p2) c ((H - oh) / 2 + i) (W - 1 - ((W - ow) / 2 + j)) :=
                  at3_hflip3 (rect3_vflip3 hp2) hc htop hleft
              _ = at3 p2 c (H - 1 - ((H - oh) / 2 + i)) (W - 1 - ((W - ow) / 2 + j)) :=
                  at3_vflip3 hp2 hc htop _
      rw [hstep]
      have hmask : atM (eqZeroMask (sumAxis0 image)) (srcRow vf H oh i)
          (srcCol hf W ow j) = true := by
        rw [atM_eqZeroMask hsum0 hvs hhs, hsum _ hvs _ hhs]
        exact hz
      have h1 : at3 (pred.map (fun plane =>
          maskZero2 plane (eqZeroMask (sumAxis0 image)))) c (srcRow vf H oh i)
          (srcCol hf W ow j) = 0 := by
        rw [hsete c hc _ hvs _ hhs, if_pos hmask]
      exact floodLoop_zero_preserve hflood h1

/-- One variant's data for a single sample: the model's probability map, the
variant's (augmented) pre-event image, its optional post-event images, its
flip flags and its averaging weight. -/
structure VarItem where
  pred : Arr3
  image : Arr3
  postA : Option Arr3
  postB : Option Arr3
  hf : Bool
  vf : Bool
  wt : ℚ

theorem rect_zero_all {classes : List String} {C H W cimg i j : ℕ}
    (hC : 0 < C) (hH : 0 < H) (hcimg : 0 < cimg) (hi : i < 1300) (hj : j < 1300) :
    ∀ (items : List VarItem) (rs : List Arr3),
      List.Forall₂ (fun (v : VarItem) (r : Arr3) =>
        rectifySample v.pred v.image v.postA v.postB classes 1300 1300 v.hf v.vf = some r)
        items rs →
      (∀ v ∈ items, rect3 v.pred C H W ∧ rect3 v.image cimg H W ∧
        chanSumAt v.image (srcRow v.vf H 1300 i) (srcCol v.hf W 1300 j) = 0) →
      ∀ r ∈ rs, rect3 r C 1300 1300 ∧ ∀ c < C, at3 r c i j = 0 := by
  intro items rs h
  induction h with
  | nil =>
    intro _ r hr
    simp at hr
  | @cons v r0 l1 l2 hvr hrest ih =>
    intro hall r hr
    rcases List.mem_cons.mp hr with rfl | hmem
    · obtain ⟨hp, himg2, hz⟩ := hall v (by simp)
      obtain ⟨hrect, _, _, hzero⟩ := rectifySample_out hvr hp himg2 hC hH hcimg
      exact ⟨hrect, fun c hc => hzero i hi j hj hz c hc⟩
    · exact ih (fun v2 hv => hall v2 (by simp [hv])) r hmem

/-- C4: for every variant, every pixel at which the channel-sum of that
variant's pre-event image tensor is zero has all class channels set to 0 in
the variant's rectified probability map (at the output position that pixel is
carried to by flip inversion and the center crop), and consequently that
pixel is 0 in all channels of the final accumulated map. -/
theorem premask_zero_rectified_accumulated
    (classes : List String) (C H W cimg i j : ℕ)
    (hC : 0 < C) (hH : 0 < H) (hcimg : 0 < cimg) (hi : i < 1300) (hj : j < 1300)
    (items : List VarItem) (rs : List Arr3)
    (hrec : List.Forall₂ (fun (v : VarItem) (r : Arr3) =>
      rectifySample v.pred v.image v.postA v.postB classes 1300 1300 v.hf v.vf = some r)
      items rs)
    (hpred : ∀ v ∈ items, rect3 v.pred C H W)
    (himg : ∀ v ∈ items, rect3 v.image cimg H W)
    (hzero : ∀ v ∈ items,
      chanSumAt v.image (srcRow v.vf H 1300 i) (srcCol v.hf W 1300 j) = 0) :
    (∀ r ∈ rs, ∀ c < C, at3 r c i j = 0) ∧
    ∃ acc, accumulate (zeros3 C 1300 1300) (rs.zip (items.map VarItem.wt)) = some acc ∧
      ∀ c < C, at3 acc c i j = 0 := by
  have hmain := rect_zero_all hC hH hcimg hi hj items rs hrec
    (fun v hv => ⟨hpred v hv, himg v hv, hzero v hv⟩)
  constructor
  · intro r hr c hc
    exact (hmain r hr).2 c hc
  · obtain ⟨acc, hacc, haccr, hacce⟩ := accumulate_entry_sum hC (by omega) (by omega)
      (rs.zip (items.map VarItem.wt)) (zeros3 C 1300 1300) (rect3_zeros3 _ _ _)
      (fun pw hpw => (hmain _ (List.of_mem_zip hpw).1).1)
    refine ⟨acc, hacc, ?_⟩
    intro c hc
    rw [hacce c hc i hi j hj, at3_zeros3, zero_add]
    apply List.sum_eq_zero
    intro x hx
    rw [List.mem_map] at hx
    obtain ⟨pw, hpw, rfl⟩ := hx
    rw [(hmain _ (List.of_mem_zip hpw).1).2 c hc, mul_zero]

theorem rect2_replicate {α : Type} (h w : ℕ) (x : α) :
    rect2 (List.replicate h (List.replicate w x)) h w := by
  refine ⟨by rw [List.length_replicate], ?_⟩
  intro r hr
  rw [List.eq_of_mem_replicate hr, List.length_replicate]

theorem planeAdd_zeros (h w : ℕ) : planeAdd (zeros2 h w) (zeros2 h w) = zeros2 h w := by
  unfold planeAdd zeros2
  rw [List.zipWith_replicate]
  simp [List.zipWith_replicate]

theorem sumAxis0_zeros (c h w : ℕ) (hc : 0 < c) :
    sumAxis0 (zeros3 c h w) = zeros2 h w := by
  induction c with
  | zero => omega
  | succ n ih =>
    cases n with
    | zero => rfl
    | succ m =>
      have e1 : zeros3 (m + 1 + 1) h w = zeros2 h w :: zeros3 (m + 1) h w := rfl
      have e2 : zeros3 (m + 1) h w = zeros2 h w :: zeros3 m h w := rfl
      rw [e1, e2]
      rw [show sumAxis0 (zeros2 h w :: zeros2 h w :: zeros3 m h w) =
        planeAdd (zeros2 h w) (sumAxis0 (zeros2 h w :: zeros3 m h w)) from rfl]
      rw [← e2, ih (by omega), planeAdd_zeros]

theorem eqZeroMask_zeros (h w : ℕ) :
    eqZeroMask (zeros2 h w) = List.replicate h (List.replicate w true) := by
  unfold eqZeroMask zeros2
  rw [List.map_replicate, List.map_replicate]
  simp

theorem maskZero2_zeros_trueMask (h w : ℕ) :
    maskZero2 (zeros2 h w) (List.replicate h (List.replicate w true)) = zeros2 h w := by
  unfold maskZero2 zeros2
  rw [List.zipWith_replicate]
  simp [List.zipWith_replicate]

theorem setZero_zeros (C h w : ℕ) :
    setZeroAllChannels (zeros3 C h w) (List.replicate h (List.replicate w true)) =
      some (zeros3 C h w) := by
  obtain ⟨hval, _, _⟩ := setZeroAllChannels_spec (rect3_zeros3 C h w)
    (rect2_replicate h w true)
  rw [hval]
  unfold zeros3
  rw [List.map_replicate, maskZero2_zeros_trueMask]

theorem floodLoop_no_flood {m : Mask} :
    ∀ (cs : List String), (∀ s ∈ cs, floodClasses.contains s = false) →
      ∀ (n : ℕ) (pred : Arr3), floodLoop m n cs pred = some pred
  | [], _, _, _ => rfl
  | name :: rest, hnf, n, pred => by
    simp only [floodLoop]
    rw [if_neg (by rw [hnf name (by simp)]; exact Bool.false_ne_true)]
    exact floodLoop_no_flood rest (fun s hs => hnf s (by simp [hs])) (n + 1) pred

theorem crop_zeros {C H W oh ow : ℕ} (hC : 0 < C) (hH : 0 < H)
    (hoh : oh ≤ H) (how : ow ≤ W) :
    crop_center (zeros3 C H W) ow oh = some (zeros3 C oh ow) := by
  unfold crop_center
  rw [dim1_of_rect3 (rect3_zeros3 C H W) hC, dim2_of_rect3 (rect3_zeros3 C H W) hC hH,
    if_pos ⟨how, hoh⟩]
  unfold zeros3 zeros2
  rw [List.map_replicate]
  congr 1
  rw [List.drop_replicate, List.take_replicate]
  have hmin : min oh (H - (H - oh) / 2) = oh := by
    have := Nat.div_le_self (H - oh) 2
    omega
  rw [hmin, List.map_replicate, List.drop_replicate, List.take_replicate]
  have hmin2 : min ow (W - (W - ow) / 2) = ow := by
    have := Nat.div_le_self (W - ow) 2
    omega
  rw [hmin2]

theorem rectifySample_zeros {classes : List String}
    (hnf : ∀ s ∈ classes, floodClasses.contains s = false)
    {C H W oh ow cimg : ℕ} (hC : 0 < C) (hcimg : 0 < cimg) (hH : 0 < H)
    (hoh : oh ≤ H) (how : ow ≤ W) :
    rectifySample (zeros3 C H W) (zeros3 cimg H W) none none classes oh ow
      false false = some (zeros3 C oh ow) := by
  unfold rectifySample
  rw [sumAxis0_zeros cimg H W hcimg, eqZeroMask_zeros, setZero_zeros]
  simp only [Option.bind_eq_bind, Option.some_bind]
  rw [show buildPostMask oh ow none none = some (allFalseMask oh ow) from rfl]
  simp only [Option.bind_eq_bind, Option.some_bind]
  rw [show maskFloodChannels (zeros3 C H W) classes (allFalseMask oh ow) =
    floodLoop (allFalseMask oh ow) 0 classes (zeros3 C H W) from rfl]
  rw [floodLoop_no_flood classes hnf 0 (zeros3 C H W)]
  simp only [Option.bind_eq_bind, Option.some_bind]
  rw [show (if (false : Bool) = true then hflip3 (if (false : Bool) = true
    then vflip3 (zeros3 C H W) else zeros3 C H W) else (if (false : Bool) = true
      then vflip3 (zeros3 C H W) else zeros3 C H W)) = zeros3 C H W from rfl]
  exact crop_zeros hC hH hoh how

theorem at2_zeros2 (h w i j : ℕ) : at2 (zeros2 h w) i j = 0 := by
  unfold at2 zeros2
  have houter : (List.replicate h (List.replicate w (0:ℚ))).getD i [] =
      if i < h then List.replicate w 0 else [] := by
    rcases Nat.lt_or_ge i h with hi | hi
    · rw [getD_of_lt _ _ (by simpa using hi), List.getElem_replicate, if_pos hi]
    · rw [getD_of_le _ _ (by simpa using hi), if_neg (by omega)]
  rw [houter]
  rcases Nat.lt_or_ge i h with hi | hi
  · rw [if_pos hi]
    rcases Nat.lt_or_ge j w with hj | hj
    · rw [getD_of_lt _ _ (by simpa using hj), List.getElem_replicate]
    · rw [getD_of_le _ _ (by simpa using hj)]
  · rw [if_neg (by omega)]
    rfl

theorem chanSumAt_zeros (c h w i j : ℕ) : chanSumAt (zeros3 c h w) i j = 0 := by
  unfold chanSumAt zeros3
  rw [List.map_replicate]
  apply List.sum_eq_zero
  intro x hx
  rw [List.eq_of_mem_replicate hx]
  exact at2_zeros2 h w i j

/-- Witness for C4 at a concrete input: one identity variant whose pre-image
is entirely zero, so the rectified map and the accumulation are zero at the
probed pixel. -/
theorem premask_zero_rectified_accumulated_witness :
    (∀ r ∈ [zeros3 1 1300 1300], ∀ c < 1, at3 r c 0 0 = 0) ∧
    ∃ acc, accumulate (zeros3 1 1300 1300)
        ([zeros3 1 1300 1300].zip
          (([⟨zeros3 1 1300 1300, zeros3 3 1300 1300, none, none, false, false, 1⟩] :
            List VarItem).map VarItem.wt)) = some acc ∧
      ∀ c < 1, at3 acc c 0 0 = 0 :=
  premask_zero_rectified_accumulated ["building"] 1 1300 1300 3 0 0
    (by omega) (by omega) (by omega) (by omega) (by omega)
    [⟨zeros3 1 1300 1300, zeros3 3 1300 1300, none, none, false, false, 1⟩]
    [zeros3 1 1300 1300]
    (List.Forall₂.cons
      (rectifySample_zeros (by intro s hs; rw [List.mem_singleton] at hs; subst hs; rfl)
        (by omega) (by omega) (by omega) (by omega) (by omega))
      List.Forall₂.nil)
    (by
      intro v hv
      rw [List.mem_singleton] at hv
      subst hv
      exact rect3_zeros3 1 1300 1300)
    (by
      intro v hv
      rw [List.mem_singleton] at hv
      subst hv
      exact rect3_zeros3 3 1300 1300)
    (by
      intro v hv
      rw [List.mem_singleton] at hv
      subst hv
      exact chanSumAt_zeros 3 1300 1300 _ _)

/-- `os.path.basename` (posix): everything after the last slash. -/
def pyBasename (p : String) : String :=
  String.mk ((p.data.reverse.takeWhile (fun c => !(c == '/'))).reverse)

/-- `os.path.dirname` (posix): everything up to the last slash, with trailing
slashes stripped unless the result is all slashes. -/
def pyDirname (p : String) : String :=
  let head := p.data.take (p.data.length -
    (p.data.reverse.takeWhile (fun c => !(c == '/'))).length)
  if head.isEmpty || head.all (fun c => c == '/') then String.mk head
  else String.mk ((head.reverse.dropWhile (fun c => c == '/')).reverse)

def startsWithSlash (s : String) : Bool :=
  match s.data with
  | [] => false
  | c :: _ => c == '/'

def endsWithSlash (s : String) : Bool :=
  match s.data.getLast? with
  | none => false
  | some c => c == '/'

/-- `os.path.join` (posix) for two components. -/
def pyJoin (a b : String) : String :=
  if startsWithSlash b then b
  else if a.data.isEmpty || endsWithSlash a then a ++ b
  else a ++ "/" ++ b

/-- Lines 233-237: the output path derived from a sample's pre-image path:
`<out_root>/<AOI>/<filename>` with `AOI = basename(dirname(dirname(pre_path)))`. -/
def deriveOutputPath (outRoot prePath : String) : String :=
  let aoi := pyBasename (pyDirname (pyDirname prePath))
  let filename := pyBasename prePath
  pyJoin (pyJoin outRoot aoi) filename

/-- Truncation toward zero, as numpy's float-to-integer `astype` rounds. -/
def truncTowardZero (q : ℚ) : ℤ := if q < 0 then -((-q).floor) else q.floor

/-- `(x * 255).astype(np.uint8)` for one entry (modulo-256 wraparound as in a
C unsigned cast; the asserted range `[0, 1]` never wraps). -/
def quantizeEntry (q : ℚ) : ℕ := ((truncTowardZero (q * 255)) % 256).toNat

/-- `(pred * 255).astype(np.uint8)` (line 247). -/
def quantize3 (a : Arr3) : NArr3 := a.map (List.map (List.map quantizeEntry))

def inUnit (q : ℚ) : Bool := decide (0 ≤ q) && decide (q ≤ 1)

/-- `pred.min() >= 0 and pred.max() <= 1` (lines 245-246). -/
def entriesBdd (a : Arr3) : Bool := a.all (fun p => p.all (fun r => r.all inUnit))

/-- One sample as yielded by a test dataloader. -/
structure Sample where
  pred : Arr3
  image : Arr3
  postA : Option Arr3
  postB : Option Arr3
  prePath : String
  origH : ℕ
  origW : ℕ

instance : Inhabited Sample := ⟨⟨[], [], none, none, "", 0, 0⟩⟩

/-- One augmentation variant's aligned batch: its flip flags, its normalized
averaging weight, and its samples. -/
structure VariantBatch where
  hflip : Bool
  vflip : Bool
  weight : ℚ
  samples : List Sample

instance : Inhabited VariantBatch := ⟨⟨false, false, 0, []⟩⟩

/-- `assert n_input_post_images in [0, 1, 2]` (line 184). -/
def checkNPost (n : ℕ) : Option Unit :=
  if n = 0 ∨ n = 1 ∨ n = 2 then some () else none

/-- Lines 185-191: pick the post-image tensors the configuration requires;
a missing required tensor is a lookup error. -/
def selectPost (avail : Option Arr3) (needed : Bool) : Option (Option Arr3) :=
  if needed then
    match avail with
    | some a => some (some a)
    | none => none
  else some none

/-- Lines 198-242 for one sample of one variant: rectify, accumulate into the
sample's buffer, derive the output path, and store it (first variant) or
assert it matches the stored one (later variants). -/
def variantSampleStep (outRoot : String) (classes : List String) (nPost : ℕ)
    (hf vf : Bool) (wt : ℚ) (isFirst : Bool) (s : Sample) (buf : Arr3)
    (stored : Option String) : Option (Arr3 × String) := do
  let pa ← selectPost s.postA (nPost == 1 || nPost == 2)
  let pb ← selectPost s.postB (nPost == 2)
  let r ← rectifySample s.pred s.image pa pb classes s.origH s.origW hf vf
  let buf2 ← addInPlace buf (smul3 wt r)
  let path := deriveOutputPath outRoot s.prePath
  if isFirst then some (buf2, path)
  else if stored == some path then some (buf2, path) else none

/-- The `for i in range(images.shape[0])` loop over one variant's batch,
threading the per-sample buffers and stored output paths. -/
def variantBatchStep (outRoot : String) (classes : List String) (nPost : ℕ)
    (hf vf : Bool) (wt : ℚ) (isFirst : Bool) :
    List Sample → List Arr3 → List (Option String) →
      Option (List Arr3 × List (Option String))
  | [], bufs, paths => some (bufs, paths)
  | s :: ss, buf :: bufs, st :: paths => do
    let (buf2, path) ← variantSampleStep outRoot classes nPost hf vf wt isFirst s buf st
    let (bufs2, paths2) ← variantBatchStep outRoot classes nPost hf vf wt isFirst ss bufs paths
    some (buf2 :: bufs2, some path :: paths2)
  | _ :: _, _, _ => none

/-- The `for dataloader_idx, batch in enumerate(batches)` loop (line 177):
each variant first re-checks the configured post-image count, then processes
its samples. -/
def runVariants (outRoot : String) (classes : List String) (nPost : ℕ) :
    List VariantBatch → Bool → List Arr3 → List (Option String) →
      Option (List Arr3 × List (Option String))
  | [], _, bufs, paths => some (bufs, paths)
  | v :: vs, isFirst, bufs, paths => do
    let _ ← checkNPost nPost
    let (bufs2, paths2) ← variantBatchStep outRoot classes nPost v.hflip v.vflip
      v.weight isFirst v.samples bufs paths
    runVariants outRoot classes nPost vs false bufs2 paths2

/-- Lines 244-248 for one sample: assert the accumulated map is in `[0, 1]`,
quantize it, and hand (destination path, uint8 array, reference pre-path) to
the raster-writer. -/
def writeSample (stored : Option String) (buf : Arr3) (prePath : String) :
    Option (String × NArr3 × String) :=
  match stored with
  | some path => if entriesBdd buf then some (path, quantize3 buf, prePath) else none
  | none => none

/-- The write loop over `zip(output_paths, preds_averaged, batch_pre_paths)`;
like Python `zip` it stops at the shortest list. -/
def writeBatch : List (Option String) → List Arr3 → List String →
    Option (List (String × NArr3 × String))
  | st :: sts, b :: bs, q :: qs => do
    let wr ← writeSample st b q
    let rest ← writeBatch sts bs qs
    some (wr :: rest)
  | _, _, _ => some []

/-- One iteration of the batch loop (lines 167-248): allocate the
`[batch, C, 1300, 1300]` buffer and the output-path slots, run all variants,
then materialize the outputs (reference pre-paths come from the last
variant's batch, as the leaked loop variable does). -/
def processBatch (outRoot : String) (classes : List String) (nPost : ℕ)
    (b : List VariantBatch) : Option (List (String × NArr3 × String)) :=
  let batchSize := (b.headD default).samples.length
  let bufs := List.replicate batchSize (zeros3 classes.length 1300 1300)
  let paths : List (Option String) := List.replicate batchSize none
  do
    let (bufs2, paths2) ← runVariants outRoot classes nPost b true bufs paths
    writeBatch paths2 bufs2 ((b.getLastD default).samples.map Sample.prePath)

/-- The whole inference loop over batches, collecting the written outputs. -/
def runAll (outRoot : String) (classes : List String) (nPost : ℕ) :
    List (List VariantBatch) → Option (List (String × NArr3 × String))
  | [] => some []
  | b :: bs => do
    let ws ← processBatch outRoot classes nPost b
    let rest ← runAll outRoot classes nPost bs
    some (ws ++ rest)

/-- Counterexample for C7 as stated: with an invalid post-image count but an
empty batch stream, the run completes successfully — no configuration
violation is ever raised, because the check sits inside the batch loop. -/
theorem invalid_npost_empty_run_succeeds :
    runAll "out" ["building"] 3 [] = some [] ∧ ¬((3 : ℕ) = 0 ∨ (3 : ℕ) = 1 ∨ (3 : ℕ) = 2) :=
  ⟨rfl, by omega⟩

/-- C7 (amended): the post-image-count assertion is checked inside the batch
loop, at the start of each variant's processing; with an invalid count and at
least one batch (with at least one variant) the run aborts while processing
the first batch, before any forward pass or write — but with zero batches the
invalid count goes completely undetected. -/
theorem invalid_npost_aborts_during_first_batch (outRoot : String)
    (classes : List String) (nPost : ℕ)
    (hbad : ¬(nPost = 0 ∨ nPost = 1 ∨ nPost = 2))
    (v : VariantBatch) (vs : List VariantBatch) (bs : List (List VariantBatch)) :
    runAll outRoot classes nPost ((v :: vs) :: bs) = none := by
  have hchk : checkNPost nPost = none := by
    unfold checkNPost
    rw [if_neg hbad]
  have hrv : runVariants outRoot classes nPost (v :: vs) true
      (List.replicate ((v :: vs).headD default).samples.length
        (zeros3 classes.length 1300 1300))
      (List.replicate ((v :: vs).headD default).samples.length none) = none := by
    unfold runVariants
    rw [hchk]
    rfl
  have hpb : processBatch outRoot classes nPost (v :: vs) = none := by
    unfold processBatch
    simp only [hrv, Option.bind_eq_bind, Option.none_bind]
  unfold runAll
  rw [hpb]
  rfl

/-- Witness for C7's amended theorem at a concrete input. -/
theorem invalid_npost_aborts_during_first_batch_witness :
    runAll "out" ["building"] 3 [[⟨false, false, 1, []⟩]] = none :=
  invalid_npost_aborts_during_first_batch "out" ["building"] 3 (by omega)
    ⟨false, false, 1, []⟩ [] []

theorem variantSampleStep_path {outRoot : String} {classes : List String} {nPost : ℕ}
    {hf vf : Bool} {wt : ℚ} {isFirst : Bool} {s : Sample} {buf b2 : Arr3}
    {st : Option String} {p2 : String}
    (h : variantSampleStep outRoot classes nPost hf vf wt isFirst s buf st =
      some (b2, p2)) :
    p2 = deriveOutputPath outRoot s.prePath ∧
      (isFirst = false → st = some (deriveOutputPath outRoot s.prePath)) := by
  unfold variantSampleStep at h
  cases hpa : selectPost s.postA (nPost == 1 || nPost == 2) with
  | none => rw [hpa] at h; simp at h
  | some pa =>
    rw [hpa] at h
    simp only [Option.bind_eq_bind, Option.some_bind] at h
    cases hpb : selectPost s.postB (nPost == 2) with
    | none => rw [hpb] at h; simp at h
    | some pb =>
      rw [hpb] at h
      simp only [Option.bind_eq_bind, Option.some_bind] at h
      cases hr : rectifySample s.pred s.image pa pb classes s.origH s.origW hf vf with
      | none => rw [hr] at h; simp at h
      | some r =>
        rw [hr] at h
        simp only [Option.bind_eq_bind, Option.some_bind] at h
        cases hadd : addInPlace buf (smul3 wt r) with
        | none => rw [hadd] at h; simp at h
        | some buf2 =>
          rw [hadd] at h
          simp only [Option.bind_eq_bind, Option.some_bind] at h
          cases isFirst with
          | true =>
            rw [if_pos rfl] at h
            injection h with h
            have h2 := congrArg Prod.snd h
            simp at h2
            exact ⟨h2.symm, fun hft => by simp at hft⟩
          | false =>
            rw [if_neg Bool.false_ne_true] at h
            by_cases hst : (st == some (deriveOutputPath outRoot s.prePath)) = true
            · rw [if_pos hst] at h
              injection h with h
              have h2 := congrArg Prod.snd h
              simp at h2
              exact ⟨h2.symm, fun _ => beq_iff_eq.mp hst⟩
            · rw [if_neg hst] at h
              simp at h

theorem vbStep_paths {outRoot : String} {classes : List String} {nPost : ℕ}
    {hf vf : Bool} {wt : ℚ} {isFirst : Bool} :
    ∀ (ss : List Sample) (bufs : List Arr3) (paths : List (Option String))
      (bufs2 : List Arr3) (paths2 : List (Option String)),
      variantBatchStep outRoot classes nPost hf vf wt isFirst ss bufs paths =
        some (bufs2, paths2) →
      (∀ k, k < ss.length →
        paths2.getD k none =
          some (deriveOutputPath outRoot ((ss.getD k default).prePath)) ∧
        (isFirst = false →
          paths.getD k none =
            some (deriveOutputPath outRoot ((ss.getD k default).prePath)))) ∧
      (∀ k, ss.length ≤ k → paths2.getD k none = paths.getD k none)
  | [], bufs, paths, bufs2, paths2, h => by
    simp only [variantBatchStep] at h
    injection h with h
    have hp := congrArg Prod.snd h
    simp at hp
    refine ⟨fun k hk => by simp at hk, fun k _ => by rw [← hp]⟩
  | s :: ss, [], paths, bufs2, paths2, h => by
    simp only [variantBatchStep] at h
    exact Option.noConfusion h
  | s :: ss, buf :: bufs, [], bufs2, paths2, h => by
    simp only [variantBatchStep] at h
    exact Option.noConfusion h
  | s :: ss, buf :: bufs, st :: paths, bufs2, paths2, h => by
    simp only [variantBatchStep] at h
    cases hs : variantSampleStep outRoot classes nPost hf vf wt isFirst s buf st with
    | none => rw [hs] at h; simp at h
    | some pr =>
      obtain ⟨b2, p2⟩ := pr
      rw [hs] at h
      simp only [Option.bind_eq_bind, Option.some_bind] at h
      cases hrec : variantBatchStep outRoot classes nPost hf vf wt isFirst ss bufs paths with
      | none => rw [hrec] at h; simp at h
      | some pr2 =>
        obtain ⟨bufs2', paths2'⟩ := pr2
        rw [hrec] at h
        simp only [Option.some_bind] at h
        injection h with h
        have hp := congrArg Prod.snd h
        simp only at hp
        obtain ⟨hpath, hstored⟩ := variantSampleStep_path hs
        obtain ⟨ih1, ih2⟩ := vbStep_paths ss bufs paths bufs2' paths2' hrec
        constructor
        · intro k hk
          cases k with
          | zero =>
            rw [← hp]
            simp only [List.getD_cons_zero]
            exact ⟨by rw [hpath], fun hff => by
              rw [hstored hff]⟩
          | succ k' =>
            rw [← hp]
            simp only [List.getD_cons_succ]
            exact ih1 k' (by simp at hk; omega)
        · intro k hk
          cases k with
          | zero => simp at hk
          | succ k' =>
            rw [← hp]
            simp only [List.getD_cons_succ]
            exact ih2 k' (by simp at hk; omega)

theorem runVariants_later {outRoot : String} {classes : List String} {nPost : ℕ} :
    ∀ (vs : List VariantBatch) (bufs : List Arr3) (paths : List (Option String))
      (res : List Arr3 × List (Option String)),
      runVariants outRoot classes nPost vs false bufs paths = some res →
      ∀ v ∈ vs, ∀ k < v.samples.length,
        paths.getD k none =
          some (deriveOutputPath outRoot ((v.samples.getD k default).prePath))
  | [], _, _, _, _ => by
    intro v hv
    simp at hv
  | v0 :: vs', bufs, paths, res, h => by
    unfold runVariants at h
    cases hchk : checkNPost nPost with
    | none => rw [hchk] at h; simp at h
    | some u =>
      rw [hchk] at h
      simp only [Option.bind_eq_bind, Option.some_bind] at h
      cases hvb : variantBatchStep outRoot classes nPost v0.hflip v0.vflip v0.weight
          false v0.samples bufs paths with
      | none => rw [hvb] at h; simp at h
      | some pr =>
        obtain ⟨bufs2, paths2⟩ := pr
        rw [hvb] at h
        simp only [Option.some_bind] at h
        have hhead := vbStep_paths v0.samples bufs paths bufs2 paths2 hvb
        intro v hv k hk
        rcases List.mem_cons.mp hv with rfl | hmem
        · exact (hhead.1 k hk).2 rfl
        · have htail := runVariants_later vs' bufs2 paths2 res h v hmem k hk
          have heq : paths.getD k none = paths2.getD k none := by
            rcases Nat.lt_or_ge k v0.samples.length with hk0 | hk0
            · rw [(hhead.1 k hk0).1, (hhead.1 k hk0).2 rfl]
            · exact (hhead.2 k hk0).symm
          rw [heq]
          exact htail

set_option maxHeartbeats 4000000 in
/-- C5: whenever a full pass over all variants of a batch succeeds, every
non-first variant derived the same output path as the first variant at the
same batch index (a mismatch aborts before completion), and no output is
materialized unless the variant pass over the whole batch succeeded. -/
theorem output_path_consistency (outRoot : String) (classes : List String)
    (nPost : ℕ) (v0 : VariantBatch) (vs : List VariantBatch) (bufs : List Arr3)
    (n : ℕ) (hn : v0.samples.length = n) (hvs : ∀ v ∈ vs, v.samples.length = n)
    (res : List Arr3 × List (Option String))
    (hrun : runVariants outRoot classes nPost (v0 :: vs) true bufs
      (List.replicate n none) = some res) :
    (∀ k < vs.length, ∀ i < n,
      deriveOutputPath outRoot (((vs.getD k default).samples.getD i default).prePath) =
        deriveOutputPath outRoot ((v0.samples.getD i default).prePath)) ∧
    (∀ (b : List VariantBatch),
      runVariants outRoot classes nPost b true
        (List.replicate (b.headD default).samples.length
          (zeros3 classes.length 1300 1300))
        (List.replicate (b.headD default).samples.length none) = none →
      processBatch outRoot classes nPost b = none) := by
  constructor
  · unfold runVariants at hrun
    cases hchk : checkNPost nPost with
    | none => rw [hchk] at hrun; simp at hrun
    | some u =>
      rw [hchk] at hrun
      simp only [Option.bind_eq_bind, Option.some_bind] at hrun
      cases hvb : variantBatchStep outRoot classes nPost v0.hflip v0.vflip v0.weight
          true v0.samples bufs (List.replicate n none) with
      | none => rw [hvb] at hrun; simp at hrun
      | some pr =>
        obtain ⟨bufs1, paths1⟩ := pr
        rw [hvb] at hrun
        simp only [Option.some_bind] at hrun
        have hfirst := vbStep_paths v0.samples bufs (List.replicate n none)
          bufs1 paths1 hvb
        intro k hk i hi
        have hvmem : vs.getD k default ∈ vs := by
          rw [getD_of_lt _ _ hk]
          exact List.getElem_mem hk
        have hlater := runVariants_later vs bufs1 paths1 res hrun
          (vs.getD k default) hvmem i (by rw [hvs _ hvmem]; exact hi)
        have hfirsti := (hfirst.1 i (by rw [hn]; exact hi)).1
        have hcmp := hfirsti.symm.trans hlater
        injection hcmp with he
        exact he.symm
  · intro b hb
    unfold processBatch
    simp only [hb, Option.bind_eq_bind, Option.none_bind]

theorem sampleStep_zeros (outRoot prePath : String) (st : Option String)
    (isFirst : Bool) (buf : Arr3) (hbuf : rect3 buf 1 1 1)
    (hok : isFirst = true ∨ st = some (deriveOutputPath outRoot prePath)) :
    ∃ buf2, variantSampleStep outRoot ["building"] 0 false false 1 isFirst
      ⟨zeros3 1 1 1, zeros3 3 1 1, none, none, prePath, 1, 1⟩ buf st =
        some (buf2, deriveOutputPath outRoot prePath) ∧ rect3 buf2 1 1 1 := by
  obtain ⟨buf2, hadd, hrect, _⟩ := addInPlace_spec hbuf
    (rect3_smul3 (rect3_zeros3 1 1 1) 1) (by omega) (by omega) (by omega) (by omega)
    ⟨Or.inl rfl, Or.inl rfl, Or.inl rfl⟩
  refine ⟨buf2, ?_, hrect⟩
  unfold variantSampleStep
  rw [show selectPost (none : Option Arr3) ((0:ℕ) == 1 || (0:ℕ) == 2) = some none from rfl]
  simp only [Option.bind_eq_bind, Option.some_bind]
  rw [show selectPost (none : Option Arr3) ((0:ℕ) == 2) = some none from rfl]
  simp only [Option.some_bind]
  rw [rectifySample_zeros (by intro s hs; rw [List.mem_singleton] at hs; subst hs; rfl)
    (by omega) (by omega) (by omega) (by omega) (by omega)]
  simp only [Option.some_bind]
  rw [hadd]
  simp only [Option.some_bind]
  cases isFirst with
  | true => rw [if_pos rfl]
  | false =>
    rcases hok with hok | hok
    · exact absurd hok (by simp)
    · rw [if_neg Bool.false_ne_true, hok, if_pos (beq_self_eq_true _)]

theorem vbStep_single {outRoot : String} {classes : List String} {nPost : ℕ}
    {hf vf : Bool} {wt : ℚ} {isFirst : Bool} {s : Sample} {buf b2 : Arr3}
    {st : Option String} {p2 : String}
    (h : variantSampleStep outRoot classes nPost hf vf wt isFirst s buf st =
      some (b2, p2)) :
    variantBatchStep outRoot classes nPost hf vf wt isFirst [s] [buf] [st] =
      some ([b2], [some p2]) := by
  unfold variantBatchStep
  rw [h]
  simp only [Option.bind_eq_bind, Option.some_bind]
  rfl

theorem runVariants_two {outRoot : String} {classes : List String} {nPost : ℕ}
    {hf1 vf1 hf2 vf2 : Bool} {wt1 wt2 : ℚ} {ss1 ss2 : List Sample}
    {bufs bufs1 bufs2 : List Arr3} {paths paths1 paths2 : List (Option String)}
    (hchk : checkNPost nPost = some ())
    (h1 : variantBatchStep outRoot classes nPost hf1 vf1 wt1 true
      ss1 bufs paths = some (bufs1, paths1))
    (h2 : variantBatchStep outRoot classes nPost hf2 vf2 wt2 false
      ss2 bufs1 paths1 = some (bufs2, paths2)) :
    runVariants outRoot classes nPost [⟨hf1, vf1, wt1, ss1⟩, ⟨hf2, vf2, wt2, ss2⟩]
      true bufs paths = some (bufs2, paths2) := by
  unfold runVariants
  dsimp only
  rw [hchk]
  simp only [Option.bind_eq_bind, Option.some_bind]
  rw [h1]
  simp only [Option.bind_eq_bind, Option.some_bind]
  unfold runVariants
  rw [hchk]
  simp only [Option.bind_eq_bind, Option.some_bind]
  rw [h2]
  simp only [Option.bind_eq_bind, Option.some_bind]
  rfl

/-- Witness for C5 at a concrete input: two aligned variants with the same
sample, both deriving the same output path; the claim theorem applies to the
successful two-variant pass. -/
theorem output_path_consistency_witness :
    ∃ res, runVariants "o" ["building"] 0
      [⟨false, false, 1, [⟨zeros3 1 1 1, zeros3 3 1 1, none, none, "a/b/c.tif", 1, 1⟩]⟩,
       ⟨false, false, 1, [⟨zeros3 1 1 1, zeros3 3 1 1, none, none, "a/b/c.tif", 1, 1⟩]⟩]
      true [zeros3 1 1 1] (List.replicate 1 none) = some res ∧
    (∀ k < 1, ∀ i < 1,
      deriveOutputPath "o"
        ((([⟨false, false, 1, [⟨zeros3 1 1 1, zeros3 3 1 1, none, none, "a/b/c.tif", 1, 1⟩]⟩] :
          List VariantBatch).getD k default).samples.getD i default).prePath =
        deriveOutputPath "o"
          (((⟨false, false, 1, [⟨zeros3 1 1 1, zeros3 3 1 1, none, none, "a/b/c.tif", 1, 1⟩]⟩ :
            VariantBatch).samples.getD i default).prePath)) := by
  obtain ⟨buf2, h1, hr2⟩ := sampleStep_zeros "o" "a/b/c.tif" none true (zeros3 1 1 1)
    (rect3_zeros3 1 1 1) (Or.inl rfl)
  obtain ⟨buf3, h2, _⟩ := sampleStep_zeros "o" "a/b/c.tif"
    (some (deriveOutputPath "o" "a/b/c.tif")) false buf2 hr2 (Or.inr rfl)
  have hrun := runVariants_two (show checkNPost 0 = some () from rfl)
    (vbStep_single h1) (vbStep_single h2)
  refine ⟨([buf3], [some (deriveOutputPath "o" "a/b/c.tif")]), hrun, ?_⟩
  exact (output_path_consistency "o" ["building"] 0
    ⟨false, false, 1, [⟨zeros3 1 1 1, zeros3 3 1 1, none, none, "a/b/c.tif", 1, 1⟩]⟩
    [⟨false, false, 1, [⟨zeros3 1 1 1, zeros3 3 1 1, none, none, "a/b/c.tif", 1, 1⟩]⟩]
    [zeros3 1 1 1] 1 rfl
    (by intro v hv; rw [List.mem_singleton] at hv; subst hv; rfl)
    ([buf3], [some (deriveOutputPath "o" "a/b/c.tif")]) hrun).1

theorem ratFloor_eq_intFloor (q : ℚ) : q.floor = ⌊q⌋ := by
  rw [Rat.floor_def', Rat.floor_def]

theorem truncTowardZero_nonneg {q : ℚ} (h : 0 ≤ q) : truncTowardZero q = ⌊q⌋ := by
  unfold truncTowardZero
  rw [if_neg (not_lt.mpr h), ratFloor_eq_intFloor]

theorem entriesBdd_of_bounds {a : Arr3} {C h w : ℕ} (hr : rect3 a C h w)
    (hbd : ∀ c < C, ∀ i < h, ∀ j < w, 0 ≤ at3 a c i j ∧ at3 a c i j ≤ 1) :
    entriesBdd a = true := by
  unfold entriesBdd
  rw [List.all_eq_true]
  intro p hp
  rw [List.all_eq_true]
  intro r hrr
  rw [List.all_eq_true]
  intro x hx
  obtain ⟨c, hcl, rfl⟩ := List.mem_iff_getElem.mp hp
  obtain ⟨i, hil, rfl⟩ := List.mem_iff_getElem.mp hrr
  obtain ⟨j, hjl, rfl⟩ := List.mem_iff_getElem.mp hx
  have hcC : c < C := by rw [← hr.1]; exact hcl
  have hplane : rect2 a[c] h w := hr.2 _ (List.getElem_mem hcl)
  have hih : i < h := by rw [← hplane.1]; exact hil
  have hjw : j < w := by
    rw [← hplane.2 _ (List.getElem_mem hil)]
    exact hjl
  have heq : a[c][i][j] = at3 a c i j := by
    unfold at3
    rw [getD_of_lt _ _ hcl, getD_of_lt _ _ hil, getD_of_lt _ _ hjl]
  rw [heq]
  obtain ⟨h0, h1⟩ := hbd c hcC i hih j hjw
  unfold inUnit
  rw [decide_eq_true h0, decide_eq_true h1]
  rfl

theorem atN_quantize3 {a : Arr3} {C h w : ℕ} (hr : rect3 a C h w) {c i j : ℕ}
    (hc : c < C) (hi : i < h) (hj : j < w) :
    atN (quantize3 a) c i j = quantizeEntry (at3 a c i j) := by
  unfold quantize3 atN at3
  have hcl : c < a.length := by rw [hr.1]; exact hc
  rw [getD_map_of_lt _ _ [] _ hcl]
  have hrow : rect2 (a.getD c []) h w := by
    rw [getD_of_lt _ _ hcl]
    exact hr.2 _ (List.getElem_mem hcl)
  have hil : i < (a.getD c []).length := by rw [hrow.1]; exact hi
  rw [getD_map_of_lt _ _ [] _ hil]
  have hjl : j < ((a.getD c []).getD i []).length := by
    rw [rowlen_of_rect2 hrow hi]; exact hj
  rw [getD_map_of_lt _ _ 0 _ hjl]

/-- C6: the Output Materializer asserts the accumulated map is in `[0, 1]`,
quantizes it by multiplying each entry by 255 and truncating toward zero to
an 8-bit unsigned integer, and hands all class channels to the raster-writer:
no channel is dropped for the georeferenced output. -/
theorem materializer_quantizes (path prePath : String) (buf : Arr3) (C h w : ℕ)
    (hr : rect3 buf C h w)
    (hbd : ∀ c < C, ∀ i < h, ∀ j < w, 0 ≤ at3 buf c i j ∧ at3 buf c i j ≤ 1) :
    writeSample (some path) buf prePath = some (path, quantize3 buf, prePath) ∧
    (quantize3 buf).length = buf.length ∧
    ∀ c < C, ∀ i < h, ∀ j < w,
      atN (quantize3 buf) c i j = (truncTowardZero (at3 buf c i j * 255)).toNat ∧
      atN (quantize3 buf) c i j ≤ 255 := by
  refine ⟨?_, ?_, ?_⟩
  · unfold writeSample
    dsimp only
    rw [if_pos (entriesBdd_of_bounds hr hbd)]
  · rw [quantize3, List.length_map]
  · intro c hc i hi j hj
    rw [atN_quantize3 hr hc hi hj]
    obtain ⟨h0, h1⟩ := hbd c hc i hi j hj
    have h255 : (0:ℚ) ≤ at3 buf c i j * 255 := mul_nonneg h0 (by norm_num)
    have hub : at3 buf c i j * 255 ≤ 255 := by
      calc at3 buf c i j * 255 ≤ 1 * 255 := mul_le_mul_of_nonneg_right h1 (by norm_num)
      _ = 255 := one_mul 255
    unfold quantizeEntry
    rw [truncTowardZero_nonneg h255]
    have hfl0 : 0 ≤ ⌊at3 buf c i j * 255⌋ := Int.floor_nonneg.mpr h255
    have hfl255 : ⌊at3 buf c i j * 255⌋ ≤ 255 := by
      have hle := Int.floor_le_floor hub
      have h255' : ⌊(255 : ℚ)⌋ = 255 := by norm_num
      rw [h255'] at hle
      exact hle
    rw [Int.emod_eq_of_lt hfl0 (by omega)]
    exact ⟨rfl, by omega⟩

/-- Witness for C6 at a concrete input: the all-zero `1 × 1 × 1` map. -/
theorem materializer_quantizes_witness :
    writeSample (some "o/a/c.tif") [[[0]]] "a/b/c.tif" =
      some ("o/a/c.tif", quantize3 [[[0]]], "a/b/c.tif") ∧
    (quantize3 [[[0]]]).length = ([[[0]]] : Arr3).length ∧
    ∀ c < 1, ∀ i < 1, ∀ j < 1,
      atN (quantize3 [[[0]]]) c i j =
        (truncTowardZero (at3 [[[0]]] c i j * 255)).toNat ∧
      atN (quantize3 [[[0]]]) c i j ≤ 255 :=
  materializer_quantizes "o/a/c.tif" "a/b/c.tif" [[[0]]] 1 1 1
    (by unfold rect3 rect2; decide)
    (by
      intro c hc i hi j hj
      interval_cases c
      interval_cases i
      interval_cases j
      rw [show at3 [[[0]]] 0 0 0 = 0 from rfl]
      norm_num)

theorem sampleStep_mismatch (outRoot prePath : String) (classes : List String)
    (hnf : ∀ s ∈ classes, floodClasses.contains s = false)
    (hpos : 0 < classes.length) :
    ∃ buf2, variantSampleStep outRoot classes 0 false false 1 true
      ⟨zeros3 1 1 1, zeros3 3 1 1, none, none, prePath, 1, 1⟩
      (zeros3 classes.length 1300 1300) none =
        some (buf2, deriveOutputPath outRoot prePath) ∧
      rect3 buf2 classes.length 1300 1300 ∧
      ∀ c < classes.length, ∀ i < 1300, ∀ j < 1300,
        0 ≤ at3 buf2 c i j ∧ at3 buf2 c i j ≤ 1 := by
  obtain ⟨buf2, hadd, hrect, hentry⟩ := addInPlace_spec
    (rect3_zeros3 classes.length 1300 1300) (rect3_smul3 (rect3_zeros3 1 1 1) 1)
    hpos (by omega) (by omega) (by omega) ⟨Or.inl rfl, Or.inl rfl, Or.inl rfl⟩
  refine ⟨buf2, ?_, hrect, ?_⟩
  · unfold variantSampleStep
    rw [show selectPost (none : Option Arr3) ((0:ℕ) == 1 || (0:ℕ) == 2) = some none from rfl]
    simp only [Option.bind_eq_bind, Option.some_bind]
    rw [show selectPost (none : Option Arr3) ((0:ℕ) == 2) = some none from rfl]
    simp only [Option.some_bind]
    rw [rectifySample_zeros hnf (by omega) (by omega) (by omega) (by omega) (by omega)]
    simp only [Option.some_bind]
    rw [hadd]
    simp only [Option.some_bind]
    rw [if_pos trivial]
  · intro c hc i hi j hj
    rw [hentry c hc i hi j hj, at3_zeros3]
    rw [show bcastIdx 1 c = 0 from rfl, show bcastIdx 1 i = 0 from rfl,
      show bcastIdx 1 j = 0 from rfl]
    rw [at3_smul3 (rect3_zeros3 1 1 1) 1 (by omega) (by omega) (by omega), at3_zeros3]
    norm_num

theorem pipeline_mismatch_success (outRoot prePath : String) (classes : List String)
    (hnf : ∀ s ∈ classes, floodClasses.contains s = false)
    (hpos : 0 < classes.length) :
    ∃ ws, runAll outRoot classes 0
      [[⟨false, false, 1, [⟨zeros3 1 1 1, zeros3 3 1 1, none, none, prePath, 1, 1⟩]⟩]] =
        some ws := by
  obtain ⟨buf2, hstep, hrect, hbd⟩ := sampleStep_mismatch outRoot prePath classes hnf hpos
  have hvb := vbStep_single hstep
  have hrv : runVariants outRoot classes 0
      [⟨false, false, 1, [⟨zeros3 1 1 1, zeros3 3 1 1, none, none, prePath, 1, 1⟩]⟩]
      true [zeros3 classes.length 1300 1300] [none] =
        some ([buf2], [some (deriveOutputPath outRoot prePath)]) := by
    unfold runVariants
    dsimp only
    rw [show checkNPost 0 = some () from rfl]
    simp only [Option.bind_eq_bind, Option.some_bind]
    rw [hvb]
    simp only [Option.some_bind]
    rfl
  have hws : writeSample (some (deriveOutputPath outRoot prePath)) buf2 prePath =
      some (deriveOutputPath outRoot prePath, quantize3 buf2, prePath) := by
    unfold writeSample
    dsimp only
    rw [if_pos (entriesBdd_of_bounds hrect hbd)]
  have hwb : writeBatch [some (deriveOutputPath outRoot prePath)] [buf2] [prePath] =
      some [(deriveOutputPath outRoot prePath, quantize3 buf2, prePath)] := by
    unfold writeBatch
    rw [hws]
    simp only [Option.bind_eq_bind, Option.some_bind]
    rfl
  have hpb : processBatch outRoot classes 0
      [⟨false, false, 1, [⟨zeros3 1 1 1, zeros3 3 1 1, none, none, prePath, 1, 1⟩]⟩] =
        some [(deriveOutputPath outRoot prePath, quantize3 buf2, prePath)] := by
    have hform : processBatch outRoot classes 0
        [⟨false, false, 1, [⟨zeros3 1 1 1, zeros3 3 1 1, none, none, prePath, 1, 1⟩]⟩] =
      (runVariants outRoot classes 0
        [⟨false, false, 1, [⟨zeros3 1 1 1, zeros3 3 1 1, none, none, prePath, 1, 1⟩]⟩]
        true [zeros3 classes.length 1300 1300] [none]).bind
        (fun r => writeBatch r.2 r.1 [prePath]) := rfl
    rw [hform, hrv]
    simp only [Option.some_bind]
    exact hwb
  refine ⟨[(deriveOutputPath outRoot prePath, quantize3 buf2, prePath)], ?_⟩
  unfold runAll
  rw [hpb]
  simp only [Option.bind_eq_bind, Option.some_bind]
  rw [show runAll outRoot classes 0 [] = some [] from rfl]
  simp only [Option.some_bind]
  rw [List.append_nil]

/-- Counterexample for C8 as stated: a concrete run whose model output has 1
channel while the flattened class list has 2 completes the whole pipeline
with no error of any kind — no dedicated shape check exists. -/
theorem channel_mismatch_run_succeeds :
    (∃ ws, runAll "o" ["building", "road"] 0
      [[⟨false, false, 1, [⟨zeros3 1 1 1, zeros3 3 1 1, none, none, "a/b/c.tif", 1, 1⟩]⟩]] =
        some ws) ∧
    (zeros3 1 1 1).length ≠ (["building", "road"] : List String).length :=
  ⟨pipeline_mismatch_success "o" "a/b/c.tif" ["building", "road"]
      (by decide) (by decide),
   by decide⟩

/-- C8 (amended): the Forward Pass Runner performs no dedicated
output-channel check; a model output channel count that differs from the
flattened class count is not reported — a 1-channel output against a longer
class list even completes the whole run via numpy broadcasting, and other
mismatches surface only as downstream array errors. -/
theorem no_channel_count_check (outRoot prePath : String) (classes : List String)
    (hnf : ∀ s ∈ classes, floodClasses.contains s = false)
    (hlen : 2 ≤ classes.length) :
    ∃ ws, runAll outRoot classes 0
      [[⟨false, false, 1, [⟨zeros3 1 1 1, zeros3 3 1 1, none, none, prePath, 1, 1⟩]⟩]] =
        some ws ∧
      (zeros3 1 1 1).length ≠ classes.length := by
  obtain ⟨ws, hws⟩ := pipeline_mismatch_success outRoot prePath classes hnf (by omega)
  refine ⟨ws, hws, ?_⟩
  rw [show (zeros3 1 1 1).length = 1 from rfl]
  omega

/-- Witness for C8's amended theorem at a concrete input. -/
theorem no_channel_count_check_witness :
    ∃ ws, runAll "w" ["building", "road", "flood_x"] 0
      [[⟨false, false, 1, [⟨zeros3 1 1 1, zeros3 3 1 1, none, none, "p/q/r.tif", 1, 1⟩]⟩]] =
        some ws ∧
      (zeros3 1 1 1).length ≠ (["building", "road", "flood_x"] : List String).length :=
  no_channel_count_check "w" "p/q/r.tif" ["building", "road", "flood_x"]
    (by decide) (by decide)

end SN8
